import Mathlib

/-!
Verification development for the payproc daemon sources.

C strings and byte buffers are modelled as lists of byte values
(`List Nat`, each element intended to be `< 256`); a C string never
contains the NUL byte, which the embedding therefore ignores.
Definitions are translated from the C sources (journal.c, util.c,
session.c, commands.c); time values (`time_t`) are modelled as `Nat`
and the random session-id generator is modelled by passing the
generated id as an explicit argument.
-/

namespace Payproc

/-- Byte strings: C char buffers as lists of byte values. -/
abbrev Bytes := List Nat

/-! ## Journal field escaping (journal.c:258-270, util.c:1035-1047)

`write_escaped_buf` copies every byte not in the set `":&\n\r"`
verbatim and writes the bytes of that set as `%%%02X` (a percent sign
followed by two uppercase hex digits).  Note that `'%'` (byte 37) is
NOT in the escaped set. -/

/-- The bytes escaped by `write_escaped_buf`: `':'`, `'&'`, `'\n'`, `'\r'`. -/
def escSet : Bytes := [58, 38, 10, 13]

/-- Upper-case hex digit for a value `< 16`, as in `printf "%02X"`. -/
def hexDigit (n : Nat) : Nat := if n < 10 then 48 + n else 55 + n

/-- `write_escaped_buf` from journal.c (identical copy in util.c): bytes in
`":&\n\r"` become `%HH`, everything else is copied verbatim. -/
def write_escaped_buf : Bytes → Bytes
  | [] => []
  | c :: r =>
      if c ∈ escSet then 37 :: hexDigit (c / 16 % 16) :: hexDigit (c % 16) :: write_escaped_buf r
      else c :: write_escaped_buf r

/-- Value of an ASCII hex digit (accepting both cases), `none` otherwise. -/
def hexVal (c : Nat) : Option Nat :=
  if 48 ≤ c ∧ c ≤ 57 then some (c - 48)
  else if 65 ≤ c ∧ c ≤ 70 then some (c - 55)
  else if 97 ≤ c ∧ c ≤ 102 then some (c - 87)
  else none

/-- Modelled from the spec: `percent_unescape` (declared in util.h but
implemented outside of src/).  A `'%'` followed by two hex digits decodes
to the corresponding byte; any other byte is copied verbatim. -/
def percent_unescape : Bytes → Bytes
  | [] => []
  | [c] => [c]
  | [c, a] => c :: percent_unescape [a]
  | c :: a :: b :: r =>
      if c = 37 then
        match hexVal a, hexVal b with
        | some x, some y => (16 * x + y) :: percent_unescape r
        | _, _ => c :: percent_unescape (a :: b :: r)
      else c :: percent_unescape (a :: b :: r)

lemma mem_escSet {a : Nat} : a ∈ escSet ↔ a = 58 ∨ a = 38 ∨ a = 10 ∨ a = 13 := by
  simp [escSet]

lemma hexDigit_not_escSet (n : Nat) : hexDigit n ∉ escSet := by
  simp only [hexDigit, mem_escSet]
  split <;> omega

/-- Bytes that are not escaped pass through `write_escaped_buf` unchanged. -/
lemma write_escaped_buf_cons_of_not_mem {c : Nat} (h : c ∉ escSet) (r : Bytes) :
    write_escaped_buf (c :: r) = c :: write_escaped_buf r := by
  simp [write_escaped_buf, h]

/-- The escaped form never contains `':'`, `'&'`, `'\n'` or `'\r'`. -/
lemma write_escaped_buf_no_escSet (s : Bytes) :
    ∀ c ∈ write_escaped_buf s, c ∉ escSet := by
  induction s with
  | nil => intro c hc; simp [write_escaped_buf] at hc
  | cons a r ih =>
      intro c hc
      by_cases hm : a ∈ escSet
      · simp only [write_escaped_buf, if_pos hm, List.mem_cons] at hc
        rcases hc with rfl | rfl | rfl | hc
        · simp [escSet]
        · exact hexDigit_not_escSet _
        · exact hexDigit_not_escSet _
        · exact ih c hc
      · rw [write_escaped_buf_cons_of_not_mem hm] at hc
        rcases List.mem_cons.mp hc with rfl | hc
        · exact hm
        · exact ih c hc

/-- Unescaping a non-percent byte just copies it. -/
lemma percent_unescape_cons_of_ne {c : Nat} (h : c ≠ 37) (t : Bytes) :
    percent_unescape (c :: t) = c :: percent_unescape t := by
  match t with
  | [] => rfl
  | [a] => rfl
  | a :: b :: r => simp [percent_unescape, h]

/-- Unescaping a valid escape sequence decodes the byte. -/
lemma percent_unescape_escape {a b x y : Nat} (ha : hexVal a = some x)
    (hb : hexVal b = some y) (r : Bytes) :
    percent_unescape (37 :: a :: b :: r) = (16 * x + y) :: percent_unescape r := by
  simp [percent_unescape, ha, hb]

/-- Unescaping inverts escaping on percent-free inputs. -/
lemma percent_unescape_write_escaped_buf (s : Bytes) (h : 37 ∉ s) :
    percent_unescape (write_escaped_buf s) = s := by
  induction s with
  | nil => rfl
  | cons a r ih =>
      have hr : 37 ∉ r := fun hm => h (List.mem_cons_of_mem _ hm)
      have ha : a ≠ 37 := fun he => h (he ▸ List.mem_cons_self a r)
      by_cases hm : a ∈ escSet
      · rcases mem_escSet.mp hm with rfl | rfl | rfl | rfl <;>
          · rw [write_escaped_buf, if_pos hm]
            norm_num [hexDigit]
            simp [percent_unescape, hexVal, ih hr]
      · rw [write_escaped_buf_cons_of_not_mem hm, percent_unescape_cons_of_ne ha, ih hr]

/-! ## Amount conversion (util.c:963-1028)

`convert_amount` parses a decimal amount string into the smallest
currency unit using `unsigned int` arithmetic (modelled as arithmetic
mod `2^32` with the source's `v < value` wrap check);
`reconvert_amount` prints it back.  The C `int cents` argument of
`reconvert_amount` is modelled on the non-negative range exercised by
its callers. -/

/-- `2^32`, the modulus of C `unsigned int` arithmetic. -/
def U32 : Nat := 4294967296

/-- `strchr ("0123456789", c)` as a predicate. -/
def isDigitB (c : Nat) : Bool := 48 ≤ c && c ≤ 57

/-- The scanning loop of `convert_amount`: processes the characters,
tracking the number of decimal points seen (`ndots`), the number of
post-decimal digits (`nfrac`) and the accumulated value; `none` models
the `return 0` error paths. -/
def caLoop (decdigits : Nat) : Bytes → Nat → Nat → Nat → Option (Nat × Nat)
  | [], _, nfrac, value => some (value, nfrac)
  | c :: s, ndots, nfrac, value =>
      if c = 46 then
        if decdigits = 0 then none
        else if ndots + 1 > 1 then none
        else caLoop decdigits s (ndots + 1) nfrac value
      else if ¬ isDigitB c then none
      else if ndots ≠ 0 ∧ nfrac + 1 > decdigits then none
      else
        let nfrac' := if ndots ≠ 0 then nfrac + 1 else nfrac
        let v := (10 * value + (c - 48)) % U32
        if v < value then none
        else caLoop decdigits s ndots nfrac' v

/-- The final padding loop of `convert_amount` (`for (; nfrac < decdigits; nfrac++)`),
indexed by the number `decdigits - nfrac` of remaining iterations. -/
def caPad : Nat → Nat → Option Nat
  | 0, value => some value
  | k + 1, value =>
      let v := (10 * value) % U32
      if v < value then none else caPad k v

/-- Skip an optional leading plus sign (`if (*string == 43) string++`). -/
def skipPlus : Bytes → Bytes
  | [] => []
  | c :: r => if c = 43 then r else c :: r

/-- `convert_amount` from util.c: check the amount string and convert it to
the smallest currency unit; `0` on error. -/
def convert_amount (s : Bytes) (decdigits : Nat) : Nat :=
  match caLoop decdigits (skipPlus s) 0 0 0 with
  | none => 0
  | some (value, nfrac) =>
      match caPad (decdigits - nfrac) value with
      | none => 0
      | some v => v

/-- Decimal printer with explicit fuel (structural recursion). -/
def natToDecFuel : Nat → Nat → Bytes
  | 0, _ => []
  | fuel + 1, n => if n < 10 then [48 + n] else natToDecFuel fuel (n / 10) ++ [48 + n % 10]

/-- ASCII decimal representation of a natural number, as `printf "%d"`. -/
def natToDec (n : Nat) : Bytes := natToDecFuel (n + 1) n

/-- Zero padding to width `w`, as `printf "%0*d"`. -/
def padZeros (w : Nat) (ds : Bytes) : Bytes := List.replicate (w - ds.length) 48 ++ ds

/-- `reconvert_amount` from util.c: print `cents` with `decdigits` post
decimal positions (`"%d"` or `"%d.%0*d"`). -/
def reconvert_amount (cents : Nat) (decdigits : Nat) : Bytes :=
  if decdigits = 0 then natToDec cents
  else natToDec (cents / 10 ^ decdigits) ++ 46 :: padZeros decdigits (natToDec (cents % 10 ^ decdigits))

/-- Mathematical value of a digit string (used to state what the parsed
value of an input is, independent of the 32-bit wrap check). -/
def accVal (ds : Bytes) (a : Nat) : Nat := ds.foldl (fun v c => 10 * v + (c - 48)) a

lemma natToDecFuel_stable (n : Nat) : ∀ f, n < f → natToDecFuel f n = natToDec n := by
  induction n using Nat.strong_induction_on with
  | _ n ih =>
      intro f hf
      match f, hf with
      | f + 1, _ =>
        by_cases h10 : n < 10
        · simp [natToDecFuel, natToDec, h10]
        · have hdiv : n / 10 < n := Nat.div_lt_self (by omega) (by norm_num)
          have hnf : n ≤ f := by omega
          have h1 : natToDecFuel (f + 1) n = natToDecFuel f (n / 10) ++ [48 + n % 10] := by
            simp [natToDecFuel, h10]
          have h2 : natToDec n = natToDecFuel n (n / 10) ++ [48 + n % 10] := by
            simp [natToDec, natToDecFuel, h10]
          rw [h1, h2, ih _ hdiv f (by omega), ih _ hdiv n (by omega)]

lemma natToDec_small {n : Nat} (h : n < 10) : natToDec n = [48 + n] := by
  simp [natToDec, natToDecFuel, h]

lemma natToDec_step {n : Nat} (h : 10 ≤ n) :
    natToDec n = natToDec (n / 10) ++ [48 + n % 10] := by
  have hdiv : n / 10 < n := Nat.div_lt_self (by omega) (by norm_num)
  have : natToDec n = natToDecFuel n (n / 10) ++ [48 + n % 10] := by
    simp [natToDec, natToDecFuel, Nat.not_lt.mpr h]
  rw [this, natToDecFuel_stable _ _ (by omega)]

lemma natToDec_digits (n : Nat) : ∀ c ∈ natToDec n, 48 ≤ c ∧ c ≤ 57 := by
  induction n using Nat.strong_induction_on with
  | _ n ih =>
      intro c hc
      by_cases h10 : n < 10
      · rw [natToDec_small h10] at hc
        simp at hc
        omega
      · rw [natToDec_step (by omega)] at hc
        rcases List.mem_append.mp hc with hc | hc
        · exact ih _ (Nat.div_lt_self (by omega) (by norm_num)) c hc
        · simp at hc
          have := Nat.mod_lt n (y := 10) (by norm_num)
          omega

lemma natToDec_ne_nil (n : Nat) : natToDec n ≠ [] := by
  by_cases h10 : n < 10
  · rw [natToDec_small h10]; simp
  · rw [natToDec_step (by omega)]; simp

lemma natToDec_length_le {n k : Nat} (hk : 1 ≤ k) (h : n < 10 ^ k) :
    (natToDec n).length ≤ k := by
  induction n using Nat.strong_induction_on generalizing k with
  | _ n ih =>
      by_cases h10 : n < 10
      · rw [natToDec_small h10]; simpa using hk
      · have hk2 : 2 ≤ k := by
          by_contra hlt
          have hk1 : k = 1 := by omega
          subst hk1
          norm_num at h
          omega
        rw [natToDec_step (by omega)]
        have hdiv : n / 10 < n := Nat.div_lt_self (by omega) (by norm_num)
        have hdivlt : n / 10 < 10 ^ (k - 1) := by
          have : n < 10 * 10 ^ (k - 1) := by
            have : 10 * 10 ^ (k - 1) = 10 ^ k := by
              rw [← pow_succ']
              congr 1
              omega
            omega
          omega
        have := ih _ hdiv (k := k - 1) (by omega) hdivlt
        simp only [List.length_append, List.length_cons, List.length_nil]
        omega

lemma accVal_append (x y : Bytes) (a : Nat) : accVal (x ++ y) a = accVal y (accVal x a) := by
  simp [accVal, List.foldl_append]

lemma accVal_ge (ds : Bytes) : ∀ a, a ≤ accVal ds a := by
  induction ds with
  | nil => intro a; simp [accVal]
  | cons c r ih =>
      intro a
      have h1 : accVal (c :: r) a = accVal r (10 * a + (c - 48)) := rfl
      have := ih (10 * a + (c - 48))
      omega

lemma accVal_replicate48 (k : Nat) : ∀ a, accVal (List.replicate k 48) a = a * 10 ^ k := by
  induction k with
  | zero => intro a; simp [accVal]
  | succ k ih =>
      intro a
      have h1 : accVal (List.replicate (k + 1) 48) a = accVal (List.replicate k 48) (10 * a) := by
        simp [List.replicate_succ, accVal]
      rw [h1, ih]
      ring

lemma accVal_natToDec (n : Nat) : ∀ a, accVal (natToDec n) a = a * 10 ^ (natToDec n).length + n := by
  induction n using Nat.strong_induction_on with
  | _ n ih =>
      intro a
      by_cases h10 : n < 10
      · rw [natToDec_small h10]
        simp [accVal]
        ring
      · have hdiv : n / 10 < n := Nat.div_lt_self (by omega) (by norm_num)
        rw [natToDec_step (by omega), accVal_append]
        have h1 : accVal [48 + n % 10] (accVal (natToDec (n / 10)) a)
            = 10 * accVal (natToDec (n / 10)) a + n % 10 := by
          simp [accVal]
        rw [h1, ih _ hdiv a, List.length_append, List.length_cons, List.length_nil,
          pow_succ]
        have hx : 10 * (n / 10) + n % 10 = n := by omega
        ring_nf
        linarith [hx]

lemma caLoop_digits_append (d : Nat) (ds : Bytes) (hds : ∀ c ∈ ds, 48 ≤ c ∧ c ≤ 57) :
    ∀ (rest : Bytes) (nfrac value : Nat), accVal ds value < U32 →
      caLoop d (ds ++ rest) 0 nfrac value = caLoop d rest 0 nfrac (accVal ds value) := by
  induction ds with
  | nil => intro rest nfrac value _; simp [accVal]
  | cons c r ih =>
      intro rest nfrac value hlt
      have hc := hds c (List.mem_cons_self c r)
      have hne46 : ¬ c = 46 := by omega
      have hdig : isDigitB c = true := by simp [isDigitB]; omega
      have hstep : accVal (c :: r) value = accVal r (10 * value + (c - 48)) := rfl
      have hmono := accVal_ge r (10 * value + (c - 48))
      have hlt' : 10 * value + (c - 48) < U32 := by rw [hstep] at hlt; omega
      have hmod : (10 * value + (c - 48)) % U32 = 10 * value + (c - 48) :=
        Nat.mod_eq_of_lt hlt'
      have hnlt : ¬ ((10 * value + (c - 48)) % U32 < value) := by rw [hmod]; omega
      rw [List.cons_append]
      simp only [caLoop, if_neg hne46, hdig, not_true, if_neg, ite_false, ne_eq,
        not_false_eq_true, reduceIte, hnlt, false_and]
      rw [hmod] at hnlt ⊢
      rw [ih (fun x hx => hds x (List.mem_cons_of_mem _ hx)) rest nfrac _ (hstep ▸ hlt),
        hstep]

lemma caLoop_frac (d : Nat) (ds : Bytes) (hds : ∀ c ∈ ds, 48 ≤ c ∧ c ≤ 57) :
    ∀ (nfrac value : Nat), nfrac + ds.length ≤ d → accVal ds value < U32 →
      caLoop d ds 1 nfrac value = some (accVal ds value, nfrac + ds.length) := by
  induction ds with
  | nil => intro nfrac value _ _; simp [caLoop, accVal]
  | cons c r ih =>
      intro nfrac value hlen hlt
      have hc := hds c (List.mem_cons_self c r)
      have hne46 : ¬ c = 46 := by omega
      have hdig : isDigitB c = true := by simp [isDigitB]; omega
      have hfr : ¬ (nfrac + 1 > d) := by
        simp only [List.length_cons] at hlen; omega
      have hstep : accVal (c :: r) value = accVal r (10 * value + (c - 48)) := rfl
      have hmono := accVal_ge r (10 * value + (c - 48))
      have hlt' : 10 * value + (c - 48) < U32 := by rw [hstep] at hlt; omega
      have hmod : (10 * value + (c - 48)) % U32 = 10 * value + (c - 48) :=
        Nat.mod_eq_of_lt hlt'
      have hnlt : ¬ ((10 * value + (c - 48)) % U32 < value) := by rw [hmod]; omega
      simp only [caLoop, if_neg hne46, hdig, not_true, ite_false, ne_eq, one_ne_zero,
        not_false_eq_true, true_and, if_neg hfr, reduceIte, hnlt]
      rw [hmod]
      rw [ih (fun x hx => hds x (List.mem_cons_of_mem _ hx)) (nfrac + 1) _
        (by simp only [List.length_cons] at hlen; omega) (hstep ▸ hlt), hstep]
      simp only [List.length_cons]
      congr 1
      congr 1
      omega

lemma skipPlus_digit {c : Nat} (t : Bytes) (h : 48 ≤ c) : skipPlus (c :: t) = c :: t := by
  have : ¬ c = 43 := by omega
  simp [skipPlus, this]

lemma padZeros_digits {w : Nat} {ds : Bytes} (h : ∀ c ∈ ds, 48 ≤ c ∧ c ≤ 57) :
    ∀ c ∈ padZeros w ds, 48 ≤ c ∧ c ≤ 57 := by
  intro c hc
  rcases List.mem_append.mp hc with hc | hc
  · have := List.eq_of_mem_replicate hc; omega
  · exact h c hc

lemma padZeros_length {w : Nat} {ds : Bytes} (h : ds.length ≤ w) :
    (padZeros w ds).length = w := by
  simp [padZeros]
  omega

lemma accVal_padZeros (w r q : Nat) (hlen : (natToDec r).length ≤ w) :
    accVal (padZeros w (natToDec r)) q = q * 10 ^ w + r := by
  unfold padZeros
  rw [accVal_append, accVal_replicate48, accVal_natToDec, mul_assoc, ← pow_add]
  congr 3
  omega

/-- The round trip `convert_amount (reconvert_amount n d) d = n`. -/
lemma convert_reconvert (n d : Nat) (hn : n ≤ 10 ^ 9) (hd : d ≤ 3) :
    convert_amount (reconvert_amount n d) d = n := by
  have h9 : (10 : Nat) ^ 9 = 1000000000 := by norm_num
  have hnU : n < U32 := by unfold U32; omega
  by_cases hd0 : d = 0
  · subst hd0
    have hrw : reconvert_amount n 0 = natToDec n := by simp [reconvert_amount]
    obtain ⟨c, t, hct⟩ := List.exists_cons_of_ne_nil (natToDec_ne_nil n)
    have hcdig : 48 ≤ c ∧ c ≤ 57 := by
      apply natToDec_digits n
      rw [hct]
      exact List.mem_cons_self _ _
    unfold convert_amount
    rw [hrw, hct, skipPlus_digit _ hcdig.1, ← hct]
    have hacc : accVal (natToDec n) 0 = n := by rw [accVal_natToDec]; simp
    have hloop := caLoop_digits_append 0 (natToDec n) (natToDec_digits n) [] 0 0
      (by rw [hacc]; exact hnU)
    rw [List.append_nil] at hloop
    rw [hloop, hacc]
    simp [caLoop, caPad]
  · set q := n / 10 ^ d with hq
    set r := n % 10 ^ d with hr
    have hqr : 10 ^ d * q + r = n := Nat.div_add_mod n (10 ^ d)
    have hrlt : r < 10 ^ d := Nat.mod_lt _ (by positivity)
    have hqle : q ≤ n := Nat.div_le_self _ _
    simp only [reconvert_amount, if_neg hd0]
    obtain ⟨c, t, hct⟩ := List.exists_cons_of_ne_nil (natToDec_ne_nil q)
    have hcdig : 48 ≤ c ∧ c ≤ 57 := by
      apply natToDec_digits q
      rw [hct]
      exact List.mem_cons_self _ _
    unfold convert_amount
    rw [hct, List.cons_append, skipPlus_digit _ hcdig.1, ← List.cons_append, ← hct]
    have haccq : accVal (natToDec q) 0 = q := by rw [accVal_natToDec]; simp
    have hqU : accVal (natToDec q) 0 < U32 := by rw [haccq]; omega
    rw [caLoop_digits_append d (natToDec q) (natToDec_digits q) _ 0 0 hqU]
    rw [haccq]
    have hlenr : (natToDec r).length ≤ d := natToDec_length_le (by omega) hrlt
    have hgt : ¬ ((0:Nat) + 1 > 1) := by omega
    simp only [caLoop, if_pos rfl, if_neg hd0, if_neg hgt, gt_iff_lt, reduceIte]
    have haccp : accVal (padZeros d (natToDec r)) q = n := by
      rw [accVal_padZeros d r q hlenr, Nat.mul_comm]
      omega
    rw [caLoop_frac d _ (padZeros_digits (natToDec_digits r)) 0 q
      (by rw [padZeros_length hlenr]; omega) (by rw [haccp]; exact hnU)]
    rw [haccp, padZeros_length hlenr]
    simp [caPad]

/-- Claim C7: the claim's overflow clause fails on the code: the input
"42949672959" parses to a value that overflows the unsigned 32-bit range,
yet `convert_amount` returns the wrapped value 4294967295 instead of 0,
because the wrap check `v < value` does not fire on this input. -/
theorem C7_counterexample :
    accVal [52, 50, 57, 52, 57, 54, 55, 50, 57, 53, 57] 0 = 42949672959 ∧
    U32 ≤ 42949672959 ∧
    convert_amount [52, 50, 57, 52, 57, 54, 55, 50, 57, 53, 57] 0 = 4294967295 ∧
    (4294967295 : Nat) ≠ 0 := by
  decide

/-- Claim C7 (amended): for all `n ≤ 10^9` and `d ∈ {0,1,2,3}`,
`convert_amount (reconvert_amount n d) d = n`; `convert_amount` returns 0
for "-1" and "1..0" with any `d` and for "1.234" with `d = 2`; and the
wrap check catches overflow when a step wraps below the accumulator (for
example "4294967296" yields 0), though not on every overflowing input. -/
theorem C7_amount_roundtrip :
    (∀ n d : Nat, n ≤ 10 ^ 9 → d ≤ 3 → convert_amount (reconvert_amount n d) d = n) ∧
    (∀ d : Nat, convert_amount [45, 49] d = 0) ∧
    (∀ d : Nat, convert_amount [49, 46, 46, 48] d = 0) ∧
    convert_amount [49, 46, 50, 51, 52] 2 = 0 ∧
    convert_amount [52, 50, 57, 52, 57, 54, 55, 50, 57, 54] 0 = 0 := by
  refine ⟨convert_reconvert, fun d => ?_, fun d => ?_, by decide, by decide⟩
  · simp [convert_amount, skipPlus, caLoop, isDigitB]
  · by_cases hd : d = 0 <;>
      simp [convert_amount, skipPlus, caLoop, isDigitB, hd, U32]

/-- Witness for C7_amount_roundtrip at a concrete input. -/
theorem C7_amount_roundtrip_witness :
    convert_amount (reconvert_amount 1042 2) 2 = 1042 :=
  C7_amount_roundtrip.1 1042 2 (by decide) (by decide)

/-- Claim C1: fails on the code.  `write_escaped_buf` does not escape '%'
(byte 37), so unescaping the escaped form of "%3A" yields ":" instead, and
the escaped form of ":" is "%3A", which contains '%'. -/
theorem C1_counterexample :
    percent_unescape (write_escaped_buf [37, 51, 65]) ≠ [37, 51, 65] ∧
    (37 : Nat) ∈ write_escaped_buf [58] := by
  decide

/-- Claim C1 (amended): for every byte string without '%',
percent-unescaping the `write_escaped_buf`-escaped form returns the
original string, and for every byte string the escaped form contains no
byte from the set { ':', '&', '\n', '\r' } ('%' may remain). -/
theorem C1_escape_unescape :
    (∀ s : Bytes, 37 ∉ s → percent_unescape (write_escaped_buf s) = s) ∧
    (∀ s : Bytes, ∀ c ∈ write_escaped_buf s, ¬ (c = 58 ∨ c = 38 ∨ c = 10 ∨ c = 13)) :=
  ⟨percent_unescape_write_escaped_buf,
   fun s c hc => by
     have := write_escaped_buf_no_escSet s c hc
     rwa [mem_escSet] at this⟩

/-- Witness for C1_escape_unescape at a concrete input. -/
theorem C1_escape_unescape_witness :
    percent_unescape (write_escaped_buf [104, 58, 38, 10, 13, 65]) = [104, 58, 38, 10, 13, 65] :=
  C1_escape_unescape.1 _ (by decide)

/-! ## Keyvalue dictionaries (util.c:367-461)

A keyvalue list is an ordered list of `(name, value)` entries; a value
may be NULL (the update path of `keyvalue_put` with a NULL value keeps
the entry and clears its value).  New entries are prepended. -/

/-- One keyvalue entry; `value = none` models a NULL value pointer. -/
structure KV where
  name : Bytes
  value : Option Bytes
deriving DecidableEq

/-- A keyvalue list. -/
abbrev Dict := List KV

/-- `keyvalue_get`: value of the first entry with the given name
(`none` if there is no such entry, `some none` for a NULL value). -/
def keyvalue_get (d : Dict) (k : Bytes) : Option (Option Bytes) :=
  match d.find? (fun kv => kv.name = k) with
  | some kv => some kv.value
  | none => none

/-- `keyvalue_get_string`: like `keyvalue_get` but maps both a missing
entry and a NULL value to the empty string. -/
def keyvalue_get_string (d : Dict) (k : Bytes) : Bytes :=
  match keyvalue_get d k with
  | some (some v) => v
  | _ => []

/-- Update the value of the first entry with the given name. -/
def replaceValue : Dict → Bytes → Option Bytes → Dict
  | [], _, _ => []
  | kv :: r, k, v => if kv.name = k then ⟨kv.name, v⟩ :: r else kv :: replaceValue r k v

/-- `keyvalue_put` from util.c: update the first entry with the name if it
exists (a NULL value then stays as a cleared entry); otherwise prepend a
new entry when the value is non-NULL and do nothing for a NULL value.
The `GPG_ERR_INV_VALUE` branch for an empty key never fires at the
modelled call sites, which all skip empty names. -/
def keyvalue_put (d : Dict) (k : Bytes) (v : Option Bytes) : Dict :=
  if (d.find? (fun kv => kv.name = k)).isSome then replaceValue d k v
  else
    match v with
    | some _ => ⟨k, v⟩ :: d
    | none => d

/-! ## Journal records (journal.c)

`write_escaped` writes the escaped field followed by the delimiting
colon; `write_meta` serialises the `Meta[...]` entries as
`k1=v1&k2=v2` (both sides escaped) followed by a colon.  The
timestamp is `"%04d%02d%02dT%02d%02d%02d"` of the UTC broken-down
time, modelled by passing the six components.  The euro field is the
`"%.2f"` output of the floating-point `convert_currency` (currency.c),
which the embedding takes as an opaque argument. -/

/-- `write_escaped` from journal.c: escaped string plus field colon. -/
def write_escaped (s : Bytes) : Bytes := write_escaped_buf s ++ [58]

/-- Scan of the key part of a `Meta[` name from position 5: succeeds when
the first breaking character is `']'` (not one of `"=& \t"`), the key is
nonempty and nothing follows the `']'`; returns the key. -/
def metaScan : Bytes → Bytes → Option Bytes
  | [], _ => none
  | c :: r, acc =>
      if c = 93 then (if acc = [] ∨ r ≠ [] then none else some acc.reverse)
      else if c = 61 ∨ c = 38 ∨ c = 32 ∨ c = 9 then none
      else metaScan r (c :: acc)

/-- Extract `FOO` from a name of the exact shape `Meta[FOO]`. -/
def metaInner (name : Bytes) : Option Bytes :=
  match name with
  | 77 :: 101 :: 116 :: 97 :: 91 :: rest => metaScan rest []
  | _ => none

/-- Join the `k=v` pairs with `'&'` as in the `any` flag logic of
`write_meta`. -/
def joinAmp : List Bytes → Bytes
  | [] => []
  | [x] => x
  | x :: xs => x ++ 38 :: joinAmp xs

/-- The serialised `FOO=v` pair of one dictionary entry, when it is a
`Meta[FOO]` entry with a valid key and a nonempty value. -/
def metaEntry (kv : KV) : Option Bytes :=
  match kv.value with
  | some v =>
      if v ≠ [] then
        (metaInner kv.name).map (fun inner =>
          write_escaped_buf inner ++ 61 :: write_escaped_buf v)
      else none
  | none => none

/-- The meta field body: all entries `Meta[FOO]: v` with a nonempty
value and a valid key, serialised as `FOO=v` (escaped) joined by `'&'`. -/
def metaBody (dict : Dict) : Bytes := joinAmp (dict.filterMap metaEntry)

/-- `write_meta` from journal.c: the meta field plus its field colon. -/
def write_meta (dict : Dict) : Bytes := metaBody dict ++ [58]

/-- Decimal timestamp component padded to two digits (`"%02d"`). -/
def pad2 (n : Nat) : Bytes := padZeros 2 (natToDec n)

/-- The `"%04d%02d%02dT%02d%02d%02d"` timestamp of `get_current_time`,
from the year (already offset by 1900), month, day, hour, minute, second. -/
def timestampBytes (y mo d h mi s : Nat) : Bytes :=
  padZeros 4 (natToDec y) ++ pad2 mo ++ pad2 d ++ 84 :: (pad2 h ++ pad2 mi ++ pad2 s)

/-- "Live", "Currency", "Amount", "Desc", "Email", "Last4", "Charge-Id",
"balance-transaction" and "_timestamp" as byte strings. -/
def bLive : Bytes := [76, 105, 118, 101]

def bCurrency : Bytes := [67, 117, 114, 114, 101, 110, 99, 121]

def bAmount : Bytes := [65, 109, 111, 117, 110, 116]

def bDesc : Bytes := [68, 101, 115, 99]

def bEmail : Bytes := [69, 109, 97, 105, 108]

def bLast4 : Bytes := [76, 97, 115, 116, 52]

def bChargeId : Bytes := [67, 104, 97, 114, 103, 101, 45, 73, 100]

def bBalTx : Bytes := [98, 97, 108, 97, 110, 99, 101, 45, 116, 114, 97, 110, 115, 97, 99, 116, 105, 111, 110]

def bTimestampKey : Bytes := [95, 116, 105, 109, 101, 115, 116, 97, 109, 112]

/-- `jrnl_store_charge_record` from journal.c: stores "_timestamp" into the
dictionary, then writes
`date:C:live:currency:amount:desc:mail:meta:last4:1:1:chargeid:txid::euro:`
followed by a LF.  Returns the record line and the updated dictionary. -/
def jrnl_store_charge_record (dict0 : Dict) (ts euro : Bytes) : Bytes × Dict :=
  let dict := keyvalue_put dict0 bTimestampKey (some ts)
  let live : Nat := if (keyvalue_get_string dict bLive).head? = some 116 then 49 else 48
  (ts ++ 58 :: 67 :: 58 :: live :: 58 ::
    (write_escaped (keyvalue_get_string dict bCurrency) ++
     (write_escaped (keyvalue_get_string dict bAmount) ++
      (write_escaped (keyvalue_get_string dict bDesc) ++
       (write_escaped (keyvalue_get_string dict bEmail) ++
        (write_meta dict ++
         (write_escaped (keyvalue_get_string dict bLast4) ++
          49 :: 58 :: 49 :: 58 ::
          (write_escaped (keyvalue_get_string dict bChargeId) ++
           (write_escaped (keyvalue_get_string dict bBalTx) ++
            58 :: (euro ++ [58, 10]))))))))), dict)

/-- `jrnl_store_sys_record` from journal.c: `date:$:::`, the escaped text
with its colon, nine empty fields, LF. -/
def jrnl_store_sys_record (text ts : Bytes) : Bytes :=
  ts ++ 58 :: 36 :: 58 :: 58 :: 58 :: 58 ::
    (write_escaped text ++ (58 :: 58 :: 58 :: 58 :: 58 :: 58 :: 58 :: 58 :: [58, 10]))

/-- Split a byte string at every occurrence of byte `b` (the splitting a
journal consumer performs on ':'). -/
def splitOnByte (b : Nat) : Bytes → List Bytes
  | [] => [[]]
  | c :: r =>
      if c = b then [] :: splitOnByte b r
      else
        match splitOnByte b r with
        | [] => [[c]]
        | f :: rest => (c :: f) :: rest

/-- Concatenation of colon-terminated fields, the shape of a journal line
body (every field, including the last, is followed by its colon). -/
def joinColon : List Bytes → Bytes
  | [] => []
  | f :: fs => f ++ 58 :: joinColon fs

/-- The 15 fields of a charge record, in write order. -/
def chargeFieldList (dict0 : Dict) (ts euro : Bytes) : List Bytes :=
  let dict := keyvalue_put dict0 bTimestampKey (some ts)
  let live : Nat := if (keyvalue_get_string dict bLive).head? = some 116 then 49 else 48
  [ts, [67], [live],
   write_escaped_buf (keyvalue_get_string dict bCurrency),
   write_escaped_buf (keyvalue_get_string dict bAmount),
   write_escaped_buf (keyvalue_get_string dict bDesc),
   write_escaped_buf (keyvalue_get_string dict bEmail),
   metaBody dict,
   write_escaped_buf (keyvalue_get_string dict bLast4),
   [49], [49],
   write_escaped_buf (keyvalue_get_string dict bChargeId),
   write_escaped_buf (keyvalue_get_string dict bBalTx),
   [], euro]

/-- The 15 fields of a system record, in write order. -/
def sysFieldList (text ts : Bytes) : List Bytes :=
  [ts, [36], [], [], [], write_escaped_buf text,
   [], [], [], [], [], [], [], [], []]

lemma charge_record_eq (dict0 : Dict) (ts euro : Bytes) :
    (jrnl_store_charge_record dict0 ts euro).1 =
      joinColon (chargeFieldList dict0 ts euro) ++ [10] := by
  simp [jrnl_store_charge_record, chargeFieldList, joinColon, write_escaped, write_meta,
    List.append_assoc]

lemma sys_record_eq (text ts : Bytes) :
    jrnl_store_sys_record text ts = joinColon (sysFieldList text ts) ++ [10] := by
  simp [jrnl_store_sys_record, sysFieldList, joinColon, write_escaped, List.append_assoc]

lemma splitOnByte_cons_self (b : Nat) (r : Bytes) :
    splitOnByte b (b :: r) = [] :: splitOnByte b r := by
  simp [splitOnByte]

lemma splitOnByte_append_of_not_mem {b : Nat} :
    ∀ (x : Bytes), b ∉ x → ∀ rest : Bytes,
      splitOnByte b (x ++ b :: rest) = x :: splitOnByte b rest := by
  intro x
  induction x with
  | nil => intro _ rest; simpa using splitOnByte_cons_self b rest
  | cons c x ih =>
      intro hx rest
      have hc : ¬ c = b := fun h => hx (h ▸ List.mem_cons_self c x)
      have hx' : b ∉ x := fun h => hx (List.mem_cons_of_mem _ h)
      rw [List.cons_append]
      simp only [splitOnByte, if_neg hc, ih hx' rest]

lemma splitOnByte_joinColon :
    ∀ (fs : List Bytes), (∀ f ∈ fs, 58 ∉ f) →
      splitOnByte 58 (joinColon fs) = fs ++ [[]] := by
  intro fs
  induction fs with
  | nil => intro _; rfl
  | cons f fs ih =>
      intro h
      rw [joinColon, splitOnByte_append_of_not_mem f (h f (List.mem_cons_self f fs)),
        ih (fun g hg => h g (List.mem_cons_of_mem _ hg))]
      rfl

lemma mem_joinColon {c : Nat} :
    ∀ {fs : List Bytes}, c ∈ joinColon fs → c = 58 ∨ ∃ f ∈ fs, c ∈ f := by
  intro fs
  induction fs with
  | nil => intro h; simp [joinColon] at h
  | cons f fs ih =>
      intro h
      rw [joinColon] at h
      rcases List.mem_append.mp h with h | h
      · exact Or.inr ⟨f, List.mem_cons_self f fs, h⟩
      · rcases List.mem_cons.mp h with rfl | h
        · exact Or.inl rfl
        · rcases ih h with h | ⟨g, hg, hc⟩
          · exact Or.inl h
          · exact Or.inr ⟨g, List.mem_cons_of_mem _ hg, hc⟩

lemma mem_joinAmp {c : Nat} :
    ∀ {l : List Bytes}, c ∈ joinAmp l → c = 38 ∨ ∃ p ∈ l, c ∈ p := by
  intro l
  induction l with
  | nil => intro h; simp [joinAmp] at h
  | cons x xs ih =>
      cases xs with
      | nil =>
          intro h
          exact Or.inr ⟨x, List.mem_cons_self x [], by simpa [joinAmp] using h⟩
      | cons y ys =>
          intro h
          have hj : joinAmp (x :: y :: ys) = x ++ 38 :: joinAmp (y :: ys) := rfl
          rw [hj] at h
          rcases List.mem_append.mp h with h | h
          · exact Or.inr ⟨x, List.mem_cons_self _ _, h⟩
          · rcases List.mem_cons.mp h with rfl | h
            · exact Or.inl rfl
            · rcases ih h with h | ⟨p, hp, hc⟩
              · exact Or.inl h
              · exact Or.inr ⟨p, List.mem_cons_of_mem _ hp, hc⟩

lemma write_escaped_buf_ne (s : Bytes) :
    ∀ c ∈ write_escaped_buf s, c ≠ 58 ∧ c ≠ 10 := by
  intro c hc
  have h := write_escaped_buf_no_escSet s c hc
  rw [mem_escSet] at h
  push_neg at h
  exact ⟨h.1, h.2.2.1⟩

lemma metaBody_ne (dict : Dict) : ∀ c ∈ metaBody dict, c ≠ 58 ∧ c ≠ 10 := by
  intro c hc
  rcases mem_joinAmp hc with rfl | ⟨p, hp, hcp⟩
  · exact ⟨by omega, by omega⟩
  · obtain ⟨kv, _, hf⟩ := List.mem_filterMap.mp hp
    match hv : kv.value with
    | none => simp only [metaEntry, hv] at hf; exact absurd hf (by simp)
    | some v =>
        simp only [metaEntry, hv] at hf
        by_cases hve : v ≠ []
        · rw [if_pos hve] at hf
          obtain ⟨inner, _, hpe⟩ := Option.map_eq_some'.mp hf
          subst hpe
          rcases List.mem_append.mp hcp with h | h
          · exact write_escaped_buf_ne _ c h
          · rcases List.mem_cons.mp h with rfl | h
            · exact ⟨by omega, by omega⟩
            · exact write_escaped_buf_ne _ c h
        · rw [if_neg hve] at hf; simp at hf

lemma timestampBytes_ne {y mo d h mi s : Nat} :
    ∀ c ∈ timestampBytes y mo d h mi s, c ≠ 58 ∧ c ≠ 10 := by
  intro c hc
  have hdig : ∀ (w n : Nat), c ∈ padZeros w (natToDec n) → c ≠ 58 ∧ c ≠ 10 := by
    intro w n hcc
    have := padZeros_digits (natToDec_digits n) c hcc
    omega
  simp only [timestampBytes, pad2, List.mem_append, List.mem_cons] at hc
  rcases hc with ((h | h) | h) | rfl | (h | h) | h
  · exact hdig _ _ h
  · exact hdig _ _ h
  · exact hdig _ _ h
  · exact ⟨by omega, by omega⟩
  · exact hdig _ _ h
  · exact hdig _ _ h
  · exact hdig _ _ h

lemma chargeFieldList_ne (dict0 : Dict) (y mo dd hh mi ss : Nat) (euro : Bytes)
    (heuro : ∀ c ∈ euro, c ≠ 58 ∧ c ≠ 10) :
    ∀ f ∈ chargeFieldList dict0 (timestampBytes y mo dd hh mi ss) euro,
      ∀ c ∈ f, c ≠ 58 ∧ c ≠ 10 := by
  intro f hf
  simp only [chargeFieldList, List.mem_cons, List.not_mem_nil, or_false] at hf
  rcases hf with rfl | rfl | rfl | rfl | rfl | rfl | rfl | rfl | rfl | rfl | rfl | rfl | rfl | rfl | rfl
  · exact timestampBytes_ne
  · intro c hc; simp at hc; omega
  · intro c hc
    simp at hc
    subst hc
    split <;> exact ⟨by omega, by omega⟩
  · exact write_escaped_buf_ne _
  · exact write_escaped_buf_ne _
  · exact write_escaped_buf_ne _
  · exact write_escaped_buf_ne _
  · exact metaBody_ne _
  · exact write_escaped_buf_ne _
  · intro c hc; simp at hc; omega
  · intro c hc; simp at hc; omega
  · exact write_escaped_buf_ne _
  · exact write_escaped_buf_ne _
  · intro c hc; simp at hc
  · exact heuro

lemma sysFieldList_ne (text : Bytes) (y mo dd hh mi ss : Nat) :
    ∀ f ∈ sysFieldList text (timestampBytes y mo dd hh mi ss),
      ∀ c ∈ f, c ≠ 58 ∧ c ≠ 10 := by
  intro f hf
  simp only [sysFieldList, List.mem_cons, List.not_mem_nil, or_false] at hf
  rcases hf with rfl | rfl | rfl | rfl | rfl | rfl | rfl | rfl | rfl | rfl | rfl | rfl | rfl | rfl | rfl
  · exact timestampBytes_ne
  · intro c hc; simp at hc; omega
  all_goals first
    | exact write_escaped_buf_ne _
    | (intro c hc; simp at hc)

lemma journal_line_shape {fs : List Bytes} (hne : ∀ f ∈ fs, ∀ c ∈ f, c ≠ 58 ∧ c ≠ 10) :
    10 ∉ joinColon fs ∧
    (splitOnByte 58 (joinColon fs)).length = fs.length + 1 ∧
    (splitOnByte 58 (joinColon fs)).getLast? = some [] := by
  have hsplit : splitOnByte 58 (joinColon fs) = fs ++ [[]] :=
    splitOnByte_joinColon fs (fun f hf hc => (hne f hf 58 hc).1 rfl)
  refine ⟨?_, ?_, ?_⟩
  · intro h
    rcases mem_joinColon h with h | ⟨f, hf, hc⟩
    · omega
    · exact (hne f hf 10 hc).2 rfl
  · rw [hsplit]; simp
  · rw [hsplit]
    exact List.getLast?_concat _

/-- Claim C2: fails as stated.  A charge record ends in a colon before the
LF, so splitting the LF-stripped line on ':' yields 16 components, not 15
(the last component is empty). -/
theorem C2_counterexample :
    (splitOnByte 58
      ((jrnl_store_charge_record [] (timestampBytes 2014 12 12 10 10 10)
        [49, 46, 48, 48]).1.dropLast)).length ≠ 15 := by
  decide

/-- Claim C2 (amended): every record written by `jrnl_store_charge_record`
or `jrnl_store_sys_record` is a single LF-terminated line (no interior
LF); the line body consists of exactly 15 colon-terminated fields, i.e.
splitting it on ':' yields 16 components of which the last is the empty
remainder after the final colon.  The euro argument is the `"%.2f"`
output of `convert_currency`, hence free of ':' and LF. -/
theorem C2_journal_fields :
    (∀ (dict : Dict) (y mo dd hh mi ss : Nat) (euro : Bytes),
        (∀ c ∈ euro, c ≠ 58 ∧ c ≠ 10) →
        ∃ body : Bytes,
          (jrnl_store_charge_record dict (timestampBytes y mo dd hh mi ss) euro).1
              = body ++ [10] ∧
          10 ∉ body ∧
          (splitOnByte 58 body).length = 16 ∧
          (splitOnByte 58 body).getLast? = some []) ∧
    (∀ (text : Bytes) (y mo dd hh mi ss : Nat),
        ∃ body : Bytes,
          jrnl_store_sys_record text (timestampBytes y mo dd hh mi ss)
              = body ++ [10] ∧
          10 ∉ body ∧
          (splitOnByte 58 body).length = 16 ∧
          (splitOnByte 58 body).getLast? = some []) := by
  constructor
  · intro dict y mo dd hh mi ss euro heuro
    refine ⟨joinColon (chargeFieldList dict (timestampBytes y mo dd hh mi ss) euro),
      charge_record_eq _ _ _, ?_⟩
    have hne := chargeFieldList_ne dict y mo dd hh mi ss euro heuro
    have hshape := journal_line_shape hne
    have hlen : (chargeFieldList dict (timestampBytes y mo dd hh mi ss) euro).length = 15 := by
      simp [chargeFieldList]
    exact ⟨hshape.1, by rw [hshape.2.1, hlen], hshape.2.2⟩
  · intro text y mo dd hh mi ss
    refine ⟨joinColon (sysFieldList text (timestampBytes y mo dd hh mi ss)),
      sys_record_eq _ _, ?_⟩
    have hne := sysFieldList_ne text y mo dd hh mi ss
    have hshape := journal_line_shape hne
    have hlen : (sysFieldList text (timestampBytes y mo dd hh mi ss)).length = 15 := by
      simp [sysFieldList]
    exact ⟨hshape.1, by rw [hshape.2.1, hlen], hshape.2.2⟩

/-- Witness for C2_journal_fields at a concrete dictionary. -/
theorem C2_journal_fields_witness :
    ∃ body : Bytes,
      (jrnl_store_charge_record
          [⟨bCurrency, some [69, 85, 82]⟩, ⟨bAmount, some [49, 48]⟩]
          (timestampBytes 2014 12 12 10 10 10) [49, 46, 48, 48]).1
          = body ++ [10] ∧
      10 ∉ body ∧
      (splitOnByte 58 body).length = 16 ∧
      (splitOnByte 58 body).getLast? = some [] :=
  C2_journal_fields.1 [⟨bCurrency, some [69, 85, 82]⟩, ⟨bAmount, some [49, 48]⟩]
    2014 12 12 10 10 10 [49, 46, 48, 48] (by decide)

/-! ## Command dispatch (commands.c:1339-1473)

`connection_handler` reads a request, checks the peer UID against the
allow list, looks the command up in `cmdtbl` with
`has_leading_keyword` and, for admin-tagged commands, additionally
requires the UID to be in the admin list before invoking the handler.
The handler table is modelled as an abstract function over an abstract
world type, so that "no side effect" is literally "the world is
unchanged for every possible handler". -/

/-- Skip spaces and tabs, as the tail of `has_leading_keyword`. -/
def dropSpaces : Bytes → Bytes
  | [] => []
  | c :: r => if c = 32 ∨ c = 9 then dropSpaces r else c :: r

/-- `has_leading_keyword` from util.c:189: the keyword must be a prefix
followed by end-of-string, space or tab; returns the argument rest with
leading blanks skipped. -/
def has_leading_keyword (s keyword : Bytes) : Option Bytes :=
  if keyword.isPrefixOf s then
    match s.drop keyword.length with
    | [] => some []
    | c :: rest => if c = 32 ∨ c = 9 then some (dropSpaces (c :: rest)) else none
  else none

def bSession : Bytes := [83, 69, 83, 83, 73, 79, 78]

def bCardtoken : Bytes := [67, 65, 82, 68, 84, 79, 75, 69, 78]

def bChargecard : Bytes := [67, 72, 65, 82, 71, 69, 67, 65, 82, 68]

def bPpcheckout : Bytes := [80, 80, 67, 72, 69, 67, 75, 79, 85, 84]

def bSepapreorder : Bytes := [83, 69, 80, 65, 80, 82, 69, 79, 82, 68, 69, 82]

def bCheckamount : Bytes := [67, 72, 69, 67, 75, 65, 77, 79, 85, 78, 84]

def bPpipnhd : Bytes := [80, 80, 73, 80, 78, 72, 68]

def bGetinfo : Bytes := [71, 69, 84, 73, 78, 70, 79]

def bPing : Bytes := [80, 73, 78, 71]

def bCommitpreorder : Bytes := [67, 79, 77, 77, 73, 84, 80, 82, 69, 79, 82, 68, 69, 82]

def bGetpreorder : Bytes := [71, 69, 84, 80, 82, 69, 79, 82, 68, 69, 82]

def bListpreorder : Bytes := [76, 73, 83, 84, 80, 82, 69, 79, 82, 68, 69, 82]

def bShutdown : Bytes := [83, 72, 85, 84, 68, 79, 87, 78]

def bHelp : Bytes := [72, 69, 76, 80]

/-- The command table of commands.c:1341-1363, in source order, with the
`admin_required` flag. -/
def cmdtbl : List (Bytes × Bool) :=
  [(bSession, false), (bCardtoken, false), (bChargecard, false), (bPpcheckout, false),
   (bSepapreorder, false), (bCheckamount, false), (bPpipnhd, false), (bGetinfo, false),
   (bPing, false), (bCommitpreorder, true), (bGetpreorder, true), (bListpreorder, true),
   (bShutdown, true), (bHelp, false)]

/-- Scan the command table in order; first `has_leading_keyword` match wins. -/
def findCmd : List (Bytes × Bool) → Bytes → Option (Bytes × Bool × Bytes)
  | [], _ => none
  | (name, admin) :: rest, cmd =>
      match has_leading_keyword cmd name with
      | some args => some (name, admin, args)
      | none => findCmd rest cmd

/-- Status line written back to the client by the dispatcher. -/
inductive Reply where
  | errEperm : Reply
  | errForbidden : Reply
  | errUnknown : Reply
  | handled : Bytes → Bytes → Reply
deriving DecidableEq

/-- The UID allow lists from the configuration. -/
structure OptS where
  allowedUids : List Nat
  allowedAdminUids : List Nat
deriving DecidableEq

/-- The dispatch core of `connection_handler` (commands.c:1383-1473) after
the request is parsed: allow-list check, command lookup, admin check,
handler invocation.  `handlers` abstracts the command handlers acting on
an abstract world `W` (journal, databases, sessions). -/
def connection_handler {W : Type} (handlers : Bytes → Bytes → W → W × Bytes)
    (opt : OptS) (uid : Nat) (command : Bytes) (w : W) : W × Reply :=
  if opt.allowedUids ≠ [] ∧ uid ∉ opt.allowedUids then (w, .errEperm)
  else
    match findCmd cmdtbl command with
    | some (name, admin, args) =>
        if admin ∧ uid ∉ opt.allowedAdminUids then (w, .errForbidden)
        else
          let res := handlers name args w
          (res.1, .handled name res.2)
    | none => (w, .errUnknown)

/-- Claim C6: the admin-tagged commands are exactly COMMITPREORDER,
GETPREORDER, LISTPREORDER and SHUTDOWN, and a request for an
admin-tagged command from a peer UID that passes the general allow list
but is not in the admin list is answered with the ERR FORBIDDEN status
line while the world (journal, databases) is unchanged and no handler
runs, whatever the handlers do. -/
theorem C6_admin_enforcement :
    ((cmdtbl.filter (fun e => e.2)).map (fun e => e.1)
        = [bCommitpreorder, bGetpreorder, bListpreorder, bShutdown]) ∧
    (∀ (W : Type) (handlers : Bytes → Bytes → W → W × Bytes) (opt : OptS)
        (uid : Nat) (command : Bytes) (w : W) (name args : Bytes),
        findCmd cmdtbl command = some (name, true, args) →
        (opt.allowedUids = [] ∨ uid ∈ opt.allowedUids) →
        uid ∉ opt.allowedAdminUids →
        connection_handler handlers opt uid command w = (w, Reply.errForbidden)) := by
  constructor
  · decide
  · intro W handlers opt uid command w name args hfind hallow hna
    unfold connection_handler
    have h1 : ¬ (opt.allowedUids ≠ [] ∧ uid ∉ opt.allowedUids) := by
      rcases hallow with h | h
      · simp [h]
      · simp [h]
    rw [if_neg h1, hfind]
    simp [hna]

/-- Witness for C6_admin_enforcement: SHUTDOWN from a non-admin UID. -/
theorem C6_admin_enforcement_witness :
    connection_handler (W := Nat) (fun _ _ n => (n + 1, [])) ⟨[], [0]⟩ 1000 bShutdown 0
      = (0, Reply.errForbidden) :=
  C6_admin_enforcement.2 Nat (fun _ _ n => (n + 1, [])) ⟨[], [0]⟩ 1000 bShutdown 0
    bShutdown [] (by decide) (Or.inl rfl) (by decide)

/-! ## Reply echo loop (commands.c:403-410 and the analogous loops)

Each handler echoes the reply dictionary with
`if (kv->name[0] >= 'A' && kv->name[0] < 'Z') write_data_line (kv, fp)`
and `write_data_line` skips entries with a NULL value. -/

/-- The echo condition on a name: first byte in `['A', 'Z')` (note the
strict `< 'Z'` of the source). -/
def echoName : Bytes → Bool
  | [] => false
  | c :: _ => 65 ≤ c && c < 90

/-- The entries actually written by the reply echo loop. -/
def echoDataLines (dict : Dict) : Dict :=
  dict.filter (fun kv => echoName kv.name && kv.value.isSome)

/-- Claim C8: fails as stated.  'Z' is an uppercase ASCII letter, but an
entry named "Z" with a non-null value is not echoed, because the source
compares with `< 'Z'` instead of `<= 'Z'`. -/
theorem C8_counterexample :
    echoDataLines [⟨[90], some [120]⟩] = [] ∧ 65 ≤ 90 ∧ 90 ≤ 90 := by
  decide

/-- Claim C8 (amended): an entry with a non-null value is echoed as a
data line iff its name starts with a byte in `['A','Z')`, i.e. an
uppercase letter other than 'Z'; entries whose names begin with `'_'`
are never echoed by this loop. -/
theorem C8_echo_range :
    (∀ (dict : Dict) (kv : KV), kv ∈ dict → kv.value.isSome →
        (kv ∈ echoDataLines dict ↔ ∃ c t, kv.name = c :: t ∧ 65 ≤ c ∧ c < 90)) ∧
    (∀ (dict : Dict) (kv : KV), kv ∈ echoDataLines dict → kv.name.head? ≠ some 95) := by
  constructor
  · intro dict kv hmem hsome
    rw [echoDataLines, List.mem_filter]
    constructor
    · intro h
      have h2 := h.2
      rw [Bool.and_eq_true] at h2
      match hname : kv.name with
      | [] => rw [hname] at h2; simp [echoName] at h2
      | c :: t =>
          rw [hname] at h2
          simp only [echoName, Bool.and_eq_true, decide_eq_true_eq] at h2
          exact ⟨c, t, rfl, h2.1⟩
    · rintro ⟨c, t, hname, hc1, hc2⟩
      refine ⟨hmem, ?_⟩
      rw [hname]
      simp only [echoName, Bool.and_eq_true, decide_eq_true_eq]
      exact ⟨⟨hc1, hc2⟩, hsome⟩
  · intro dict kv hmem hhead
    rw [echoDataLines, List.mem_filter, Bool.and_eq_true] at hmem
    have h2 := hmem.2.1
    match hname : kv.name with
    | [] => rw [hname] at hhead; simp at hhead
    | c :: t =>
        rw [hname] at hhead h2
        simp only [echoName, Bool.and_eq_true, decide_eq_true_eq] at h2
        simp only [List.head?_cons, Option.some.injEq] at hhead
        omega

/-- Witness for C8_echo_range at a concrete entry. -/
theorem C8_echo_range_witness :
    (⟨[65], some []⟩ : KV) ∈ echoDataLines [⟨[65], some []⟩] ↔
      ∃ c t, ([65] : Bytes) = c :: t ∧ 65 ≤ c ∧ c < 90 :=
  C8_echo_range.1 [⟨[65], some []⟩] ⟨[65], some []⟩ (by decide) (by decide)

/-! ## Session store (session.c)

The two-level hash buckets index sessions and aliases by the first two
z-base-32 characters of the id; since an id is always looked up by a
full string compare and inserted at the front of its bucket, the store
is modelled as flat front-insert lists, which is observationally
equivalent.  Pooled free objects (`unused_sessions`, `unused_aliases`)
are modelled by their counts.  `time(NULL)` is passed as `now`; the
random id generator is modelled by passing the generated id.
Allocation failures are modelled only where a claim depends on them
(the `keyvalue_put` loop of `session_put`, via `failIdx`). -/

/-- The zb32 alphabet "ybndrfg8ejkmcpqxot1uwisza345h769" (util.c:825). -/
def zb32asc : Bytes :=
  [121, 98, 110, 100, 114, 102, 103, 56, 101, 106, 107, 109, 99, 112, 113, 120,
   111, 116, 49, 117, 119, 105, 115, 122, 97, 51, 52, 53, 104, 55, 54, 57]

/-- Index of the first occurrence of `x` (memchr). -/
def listIdx : Bytes → Nat → Option Nat
  | [], _ => none
  | c :: r, x => if c = x then some 0 else (listIdx r x).map (· + 1)

/-- `zb32_index` from util.c:833: index of a zb32 character, also
accepting uppercase letters; `none` models the `-1` return. -/
def zb32_index (c : Nat) : Option Nat :=
  match listIdx zb32asc c with
  | some i => some i
  | none => if 65 ≤ c ∧ c ≤ 90 then listIdx zb32asc (c - 65 + 97) else none

/-- The common id guard of session.c: exactly 32 characters and the
first two characters valid z-base-32. -/
def validSessid (s : Bytes) : Bool :=
  s.length = 32 && (zb32_index (s.getD 0 0)).isSome && (zb32_index (s.getD 1 0)).isSome

/-- Error codes of the session operations. -/
inductive SErr where
  | limitReached : SErr
  | notFound : SErr
  | invName : SErr
  | enomem : SErr
deriving DecidableEq

/-- A session object (session.c:64-79); the three alias back-reference
slots hold the alias ids. -/
structure Sess where
  sessid : Bytes
  ttl : Nat
  created : Nat
  accessed : Nat
  dict : Dict
  aliases : List (Option Bytes)
deriving DecidableEq

/-- The global session store: session list, alias index
(aliasid, sessid of the referenced session), `sessions_in_use`, and the
sizes of the two free-object pools. -/
structure SessState where
  sessions : List Sess
  aliases : List (Bytes × Bytes)
  inUse : Nat
  pool : Nat
  apool : Nat
deriving DecidableEq

/-- The state at daemon startup. -/
def initState : SessState := ⟨[], [], 0, 0, 0⟩

/-- `check_ttl` from session.c:158: expired when idle longer than the
TTL or older than the 6 h lifetime cap. -/
def check_ttl (sess : Sess) (now : Nat) : Bool :=
  (sess.ttl > 0 && sess.accessed + sess.ttl < now) || (sess.created + 21600 < now)

/-- Find a session by id (full string compare along the bucket). -/
def findSess : List Sess → Bytes → Option Sess
  | [], _ => none
  | s :: r, id => if s.sessid = id then some s else findSess r id

/-- Remove the first session with the id from the list. -/
def removeSess : List Sess → Bytes → List Sess
  | [], _ => []
  | s :: r, id => if s.sessid = id then r else s :: removeSess r id

/-- Update the first session with the id in place. -/
def updateSess : List Sess → Bytes → (Sess → Sess) → List Sess
  | [], _, _ => []
  | s :: r, id, f => if s.sessid = id then f s :: r else s :: updateSess r id f

/-- Find an alias-index entry by alias id. -/
def findAlias : List (Bytes × Bytes) → Bytes → Option (Bytes × Bytes)
  | [], _ => none
  | a :: r, aid => if a.1 = aid then some a else findAlias r aid

/-- Remove the first alias-index entry with the alias id. -/
def removeAlias : List (Bytes × Bytes) → Bytes → List (Bytes × Bytes)
  | [], _ => []
  | a :: r, aid => if a.1 = aid then r else a :: removeAlias r aid

/-- The alias-removal loop of `session_do_destroy` / `session_housekeeping`:
clear each slot and run `do_destroy_alias` on the alias object.  Returns
the error of the first failing destruction (which aborts the loop as in
the source), the updated slots, the alias index and the alias pool. -/
def sessAliasSweep : List (Option Bytes) → List (Bytes × Bytes) → Nat →
    (Option SErr) × List (Option Bytes) × List (Bytes × Bytes) × Nat
  | [], idx, ap => (none, [], idx, ap)
  | none :: rest, idx, ap =>
      let res := sessAliasSweep rest idx ap
      (res.1, none :: res.2.1, res.2.2)
  | some aid :: rest, idx, ap =>
      if validSessid aid then
        match findAlias idx aid with
        | some _ =>
            let res := sessAliasSweep rest (removeAlias idx aid) (ap + 1)
            (res.1, none :: res.2.1, res.2.2)
        | none => (some .notFound, none :: rest, idx, ap)
      else (some .invName, none :: rest, idx, ap)

/-- `session_do_destroy` from session.c:341-401: id guard, lookup, alias
sweep, unlink, counter update, object recycling. -/
def session_do_destroy (st : SessState) (sessid : Bytes) :
    (Except SErr Unit) × SessState :=
  if ¬ validSessid sessid then (.error .invName, st)
  else
    match findSess st.sessions sessid with
    | none => (.error .notFound, st)
    | some sess =>
        match sessAliasSweep sess.aliases st.aliases st.apool with
        | (some e, slots, idx, ap) =>
            (.error e,
             { st with
               sessions := updateSess st.sessions sessid (fun s => { s with aliases := slots }),
               aliases := idx, apool := ap })
        | (none, _, idx, ap) =>
            (.ok (),
             { st with
               sessions := removeSess st.sessions sessid,
               aliases := idx, apool := ap,
               inUse := st.inUse - 1, pool := st.pool + 1 })

/-- `session_destroy` from session.c:405. -/
def session_destroy (st : SessState) (sessid : Bytes) :
    (Except SErr Unit) × SessState :=
  session_do_destroy st sessid

/-- `get_session_object` from session.c:417-459: id guard, lookup,
TTL check (destroying an expired session), refresh of `accessed`.
Returns the refreshed session object together with the updated state. -/
def get_session_object (st : SessState) (sessid : Bytes) (now : Nat) :
    (Except SErr Sess) × SessState :=
  if ¬ validSessid sessid then (.error .invName, st)
  else
    match findSess st.sessions sessid with
    | none => (.error .notFound, st)
    | some sess =>
        if check_ttl sess now then
          (.error .notFound, (session_do_destroy st sessid).2)
        else
          (.ok { sess with accessed := now },
           { st with sessions :=
               updateSess st.sessions sessid (fun s => { s with accessed := now }) })

/-- The dictionary-copy loop shared by `session_create`, `session_put`
and `session_get`: skip empty names; an empty value is stored as NULL
(which `keyvalue_put` turns into a delete/clear). -/
def mergeDict (dst : Dict) (src : Dict) : Dict :=
  src.foldl (fun d kv =>
    if kv.name ≠ [] then
      keyvalue_put d kv.name
        (match kv.value with
         | some v => if v ≠ [] then some v else none
         | none => none)
    else d) dst

/-- The stored TTL of a new session: the `int` argument capped at 6 h,
with non-positive values replaced by the 1800 s default. -/
def session_new_ttl (ttl : Int) : Nat :=
  let ttl1 : Int := if ttl > 21600 then 21600 else ttl
  if ttl1 > 0 then ttl1.toNat else 1800

/-- The freshly initialised session object of `session_create`. -/
def newSessObj (now : Nat) (ttl : Int) (dict : Dict) (newId : Bytes) : Sess :=
  { sessid := newId
    ttl := session_new_ttl ttl
    created := now
    accessed := now
    dict := mergeDict [] dict
    aliases := [none, none, none] }

/-- `session_create` from session.c:231-337: cap the TTL at 6 h, take an
object from the pool or allocate below the 65536 cap, else
LIMIT_REACHED; initialise and front-insert.  The generated session id is
the `newId` argument; allocation failures inside the dictionary
initialisation are not modelled. -/
def session_create (st : SessState) (now : Nat) (ttl : Int) (dict : Dict)
    (newId : Bytes) : (Except SErr Bytes) × SessState :=
  if st.pool > 0 then
    (.ok newId,
     { st with
       sessions := newSessObj now ttl dict newId :: st.sessions
       inUse := st.inUse + 1
       pool := st.pool - 1 })
  else if st.inUse < 65536 then
    (.ok newId,
     { st with
       sessions := newSessObj now ttl dict newId :: st.sessions
       inUse := st.inUse + 1 })
  else (.error .limitReached, st)

/-- The update loop of `session_put`, with an allocation oracle: the
`failIdx`-th executed `keyvalue_put` fails with ENOMEM, stopping the
loop and leaving the prefix applied (the source comments that the
update is not atomic). -/
def putLoop : Dict → Dict → Option Nat → Nat → (Option SErr) × Dict
  | d, [], _, _ => (none, d)
  | d, kv :: rest, failIdx, i =>
      if kv.name ≠ [] then
        if failIdx = some i then (some .enomem, d)
        else
          putLoop (keyvalue_put d kv.name
              (match kv.value with
               | some v => if v ≠ [] then some v else none
               | none => none)) rest failIdx (i + 1)
      else putLoop d rest failIdx i

/-- `session_put` from session.c:695-722. -/
def session_put (st : SessState) (sessid : Bytes) (dict : Dict) (now : Nat)
    (failIdx : Option Nat) : (Except SErr Unit) × SessState :=
  match get_session_object st sessid now with
  | (.error e, st2) => (.error e, st2)
  | (.ok sess, st2) =>
      let res := putLoop sess.dict dict failIdx 0
      let st3 := { st2 with
        sessions := updateSess st2.sessions sessid (fun s => { s with dict := res.2 }) }
      match res.1 with
      | some e => (.error e, st3)
      | none => (.ok (), st3)

/-- `session_get` from session.c:727-750: snapshot the session dictionary
into the caller's dictionary. -/
def session_get (st : SessState) (sessid : Bytes) (now : Nat) (dictp : Dict) :
    (Except SErr Dict) × SessState :=
  match get_session_object st sessid now with
  | (.error e, st2) => (.error e, st2)
  | (.ok sess, st2) => (.ok (mergeDict dictp sess.dict), st2)

/-- First free alias slot (`for (aidx=0; aidx < MAX_ALIASES_PER_SESSION ...`). -/
def findFreeSlot : List (Option Bytes) → Option Nat
  | [] => none
  | none :: _ => some 0
  | some _ :: rest => (findFreeSlot rest).map (· + 1)

/-- `session_create_alias` from session.c:470-560: TTL-checked lookup,
free-slot search (LIMIT_REACHED when all three are taken), pool reuse,
front insertion into the alias index.  The generated alias id is the
`newAlias` argument. -/
def session_create_alias (st : SessState) (sessid : Bytes) (now : Nat)
    (newAlias : Bytes) : (Except SErr Bytes) × SessState :=
  match get_session_object st sessid now with
  | (.error e, st2) => (.error e, st2)
  | (.ok sess, st2) =>
      match findFreeSlot sess.aliases with
      | none => (.error .limitReached, st2)
      | some i =>
          (.ok newAlias,
           { st2 with
             sessions := updateSess st2.sessions sessid
               (fun s => { s with aliases := s.aliases.set i (some newAlias) }),
             aliases := (newAlias, sess.sessid) :: st2.aliases,
             apool := st2.apool - 1 })

/-- `do_destroy_alias` with an alias id / `session_destroy_alias` from
session.c:568-643: id guard, index lookup, unlink, clearing of the
owning session's back-reference slot, recycling. -/
def session_destroy_alias (st : SessState) (aliasid : Bytes) :
    (Except SErr Unit) × SessState :=
  if ¬ validSessid aliasid then (.error .invName, st)
  else
    match findAlias st.aliases aliasid with
    | none => (.error .notFound, st)
    | some a =>
        (.ok (),
         { st with
           aliases := removeAlias st.aliases aliasid,
           sessions := updateSess st.sessions a.2 (fun s =>
             { s with aliases := s.aliases.map (fun slot =>
                 if slot = some aliasid then none else slot) }),
           apool := st.apool + 1 })

/-- `session_get_sessid` from session.c:648-688: id guard, index lookup,
return the referenced session's id; no refresh. -/
def session_get_sessid (st : SessState) (aliasid : Bytes) :
    (Except SErr Bytes) × SessState :=
  if ¬ validSessid aliasid then (.error .invName, st)
  else
    match findAlias st.aliases aliasid with
    | none => (.error .notFound, st)
    | some a => (.ok a.2, st)

/-- The `put` branch of `cmd_session` (commands.c:336-347): on ENOMEM
from `session_put` the session is destroyed before the error reply. -/
def cmd_session_put (st : SessState) (sessid : Bytes) (dict : Dict) (now : Nat)
    (failIdx : Option Nat) : (Option SErr) × SessState :=
  let res := session_put st sessid dict now failIdx
  match res.1 with
  | .error .enomem => (some .enomem, (session_destroy res.2 sessid).2)
  | .error e => (some e, res.2)
  | .ok _ => (none, res.2)

/-- Claim C10: every session/alias operation on an id that is not 32
characters long or whose first two characters are not z-base-32 returns
INV_NAME and leaves the whole store unchanged. -/
theorem C10_invname :
    ∀ (st : SessState) (id : Bytes), validSessid id = false →
      ∀ (now : Nat) (cd dict : Dict) (failIdx : Option Nat) (newA : Bytes),
        session_get st id now cd = (.error .invName, st) ∧
        session_put st id dict now failIdx = (.error .invName, st) ∧
        session_destroy st id = (.error .invName, st) ∧
        session_create_alias st id now newA = (.error .invName, st) ∧
        session_destroy_alias st id = (.error .invName, st) ∧
        session_get_sessid st id = (.error .invName, st) := by
  intro st id h now cd dict failIdx newA
  have hv : ¬ (validSessid id = true) := by simp [h]
  refine ⟨?_, ?_, ?_, ?_, ?_, ?_⟩ <;>
    simp [session_get, session_put, session_destroy, session_do_destroy,
      session_create_alias, session_destroy_alias, session_get_sessid,
      get_session_object, hv]

/-- Witness for C10_invname: a one-character id. -/
theorem C10_invname_witness :
    session_get initState [121] 0 [] = (.error .invName, initState) :=
  (C10_invname initState [121] (by decide) 0 [] [] none []).1

lemma findSess_updateSess (l : List Sess) (id : Bytes) (f : Sess → Sess)
    (hf : ∀ s, (f s).sessid = s.sessid) :
    findSess (updateSess l id f) id = (findSess l id).map f := by
  induction l with
  | nil => rfl
  | cons s r ih =>
      by_cases hs : s.sessid = id
      · simp [updateSess, findSess, hs, hf]
      · simp [updateSess, findSess, hs, ih]

lemma findSess_none_of_fresh (l : List Sess) (id : Bytes)
    (h : ∀ s ∈ l, s.sessid ≠ id) : findSess l id = none := by
  induction l with
  | nil => rfl
  | cons s r ih =>
      rw [findSess, if_neg (h s (List.mem_cons_self s r))]
      exact ih (fun x hx => h x (List.mem_cons_of_mem _ hx))

lemma get_session_object_ok {st : SessState} {id : Bytes} {now : Nat}
    {sess2 : Sess} {st2 : SessState}
    (h : get_session_object st id now = (.ok sess2, st2)) :
    validSessid id = true ∧
    ∃ sess, findSess st.sessions id = some sess ∧ check_ttl sess now = false ∧
      sess2 = { sess with accessed := now } ∧
      st2 = { st with
        sessions := updateSess st.sessions id (fun s => { s with accessed := now }) } := by
  unfold get_session_object at h
  split at h
  · simp at h
  · next hv =>
    rw [not_not] at hv
    refine ⟨hv, ?_⟩
    split at h
    · simp at h
    · next sess hfind =>
      split at h
      · simp at h
      · next httl =>
        simp only [Prod.mk.injEq, Except.ok.injEq] at h
        exact ⟨sess, hfind, by simpa using httl, h.1.symm, h.2.symm⟩

lemma session_create_sessions_of_ok {st : SessState} {now : Nat} {ttl : Int}
    {dict : Dict} {newId : Bytes}
    (h : (session_create st now ttl dict newId).1 = .ok newId) :
    (session_create st now ttl dict newId).2.sessions
      = newSessObj now ttl dict newId :: st.sessions := by
  unfold session_create at *
  by_cases h1 : st.pool > 0
  · simp [h1]
  · by_cases h2 : st.inUse < 65536
    · simp [h1, h2]
    · simp [h1, h2] at h

lemma session_new_ttl_of_pos {t : Nat} (ht : 0 < t) :
    session_new_ttl (t : Int) = min t 21600 := by
  simp only [session_new_ttl]
  split_ifs <;> omega

/-- Claim C3: immediately after `session_create` with TTL `t > 0`,
`session_get` succeeds; after advancing the clock by `t+1` with no
intervening access, `session_get` returns NOT_FOUND and the session is
destroyed; a successful access at time `now` resets `accessed` to `now`
so the session stays alive until `now + ttl` (within the lifetime cap);
and a session created more than 6 h ago is expired regardless of
accesses. -/
theorem C3_session_ttl :
    (∀ (st : SessState) (now t : Nat) (dict : Dict) (newId : Bytes) (cd cd2 : Dict),
        0 < t → validSessid newId = true →
        (∀ s ∈ st.sessions, s.sessid ≠ newId) →
        (session_create st now (t : Int) dict newId).1 = .ok newId →
        (∃ d, (session_get (session_create st now (t : Int) dict newId).2
            newId now cd).1 = .ok d) ∧
        (session_get (session_create st now (t : Int) dict newId).2
            newId (now + t + 1) cd2).1 = .error .notFound ∧
        findSess (session_get (session_create st now (t : Int) dict newId).2
            newId (now + t + 1) cd2).2.sessions newId = none) ∧
    (∀ (st : SessState) (id : Bytes) (now : Nat) (cd d : Dict),
        (session_get st id now cd).1 = .ok d →
        ∃ sess2, findSess (session_get st id now cd).2.sessions id = some sess2 ∧
          sess2.accessed = now ∧
          ∀ (now2 : Nat) (cd2 : Dict),
            now2 ≤ now + sess2.ttl → now2 ≤ sess2.created + 21600 →
            ∃ d2, (session_get (session_get st id now cd).2 id now2 cd2).1 = .ok d2) ∧
    (∀ (st : SessState) (id : Bytes) (now : Nat) (cd : Dict) (sess : Sess),
        validSessid id = true →
        findSess st.sessions id = some sess →
        sess.created + 21600 < now →
        (session_get st id now cd).1 = .error .notFound) := by
  refine ⟨?_, ?_, ?_⟩
  · intro st now t dict newId cd cd2 ht hv hfresh hok
    have hsess := session_create_sessions_of_ok hok
    set st2 := (session_create st now (t : Int) dict newId).2 with hst2
    have hfind : findSess st2.sessions newId = some (newSessObj now (t : Int) dict newId) := by
      rw [hsess]
      simp [findSess, newSessObj]
    have httl1 : check_ttl (newSessObj now (t : Int) dict newId) now = false := by
      simp only [check_ttl, newSessObj, Bool.or_eq_false_iff, Bool.and_eq_false_iff]
      constructor
      · right
        simp only [decide_eq_false_iff_not]
        omega
      · simp only [decide_eq_false_iff_not]
        omega
    refine ⟨⟨mergeDict cd (newSessObj now (t : Int) dict newId).dict, ?_⟩, ?_, ?_⟩
    · simp [session_get, get_session_object, hv, hfind, httl1]
    · have httl2 : check_ttl (newSessObj now (t : Int) dict newId) (now + t + 1) = true := by
        simp only [check_ttl, newSessObj, session_new_ttl_of_pos ht, Bool.or_eq_true,
          Bool.and_eq_true, decide_eq_true_eq]
        left
        omega
      simp [session_get, get_session_object, hv, hfind, httl2]
    · have httl2 : check_ttl (newSessObj now (t : Int) dict newId) (now + t + 1) = true := by
        simp only [check_ttl, newSessObj, session_new_ttl_of_pos ht, Bool.or_eq_true,
          Bool.and_eq_true, decide_eq_true_eq]
        left
        omega
      have hrm : removeSess st2.sessions newId = st.sessions := by
        rw [hsess]
        simp [removeSess, newSessObj]
      have hsweep : sessAliasSweep (newSessObj now (t : Int) dict newId).aliases
          st2.aliases st2.apool = (none, [none, none, none], st2.aliases, st2.apool) := by
        simp [newSessObj, sessAliasSweep]
      simp only [session_get, get_session_object, hv, not_true, if_false, hfind, httl2,
        Bool.not_eq_true, if_true, session_do_destroy, session_destroy, hsweep, hrm]
      exact findSess_none_of_fresh _ _ hfresh
  · intro st id now cd d hok
    have h1 : ∃ sess2 st2, get_session_object st id now = (.ok sess2, st2) := by
      unfold session_get at hok
      rcases hg : get_session_object st id now with ⟨r, st2⟩
      rw [hg] at hok
      match r with
      | .error e => simp at hok
      | .ok sess2 => exact ⟨sess2, st2, rfl⟩
    obtain ⟨sess2, st2, hg⟩ := h1
    obtain ⟨hv, sess, hfind, httl, hsess2, hst2⟩ := get_session_object_ok hg
    have hget2 : (session_get st id now cd).2 = st2 := by
      unfold session_get
      rw [hg]
    have hfind2 : findSess st2.sessions id = some sess2 := by
      rw [hst2, hsess2]
      have := findSess_updateSess st.sessions id (fun s => { s with accessed := now })
        (fun s => rfl)
      simp only [this, hfind, Option.map_some']
    refine ⟨sess2, by rw [hget2]; exact hfind2, by rw [hsess2], ?_⟩
    intro now2 cd2 hb1 hb2
    have httl3 : check_ttl sess2 now2 = false := by
      have h1 : sess2.ttl = sess.ttl := by rw [hsess2]
      have h2 : sess2.created = sess.created := by rw [hsess2]
      have h3 : sess2.accessed = now := by rw [hsess2]
      rw [h1] at hb1
      rw [h2] at hb2
      simp only [check_ttl, Bool.or_eq_false_iff, Bool.and_eq_false_iff, h1, h2, h3]
      constructor
      · right
        simp only [decide_eq_false_iff_not]
        omega
      · simp only [decide_eq_false_iff_not]
        omega
    refine ⟨mergeDict cd2 sess2.dict, ?_⟩
    rw [hget2]
    simp [session_get, get_session_object, hv, hfind2, httl3]
  · intro st id now cd sess hv hfind hold
    have httl : check_ttl sess now = true := by
      simp only [check_ttl, Bool.or_eq_true, Bool.and_eq_true, decide_eq_true_eq]
      right
      omega
    simp [session_get, get_session_object, hv, hfind, httl]

/-- The session id used in the concrete witnesses (32 times 'y'). -/
def yid : Bytes := List.replicate 32 121

/-- The alias id used in the concrete witnesses (32 times 'b'). -/
def bid : Bytes := List.replicate 32 98

/-- Witness for C3_session_ttl: create with TTL 60 at time 0, get at
times 0 and 61. -/
theorem C3_session_ttl_witness :
    (∃ d, (session_get (session_create initState 0 ((60 : Nat) : Int) [] yid).2
        yid 0 []).1 = .ok d) ∧
    (session_get (session_create initState 0 ((60 : Nat) : Int) [] yid).2
        yid (0 + 60 + 1) []).1 = .error .notFound ∧
    findSess (session_get (session_create initState 0 ((60 : Nat) : Int) [] yid).2
        yid (0 + 60 + 1) []).2.sessions yid = none :=
  C3_session_ttl.1 initState 0 60 [] yid [] [] (by decide) (by decide)
    (by intro s hs; simp [initState] at hs) (by rfl)

lemma findSess_some_sessid : ∀ {l : List Sess} {id : Bytes} {s : Sess},
    findSess l id = some s → s.sessid = id := by
  intro l
  induction l with
  | nil => intro id s h; simp [findSess] at h
  | cons a r ih =>
      intro id s h
      rw [findSess] at h
      by_cases ha : a.sessid = id
      · rw [if_pos ha] at h
        cases h
        exact ha
      · rw [if_neg ha] at h
        exact ih h

lemma removeAlias_sublist (l : List (Bytes × Bytes)) (aid : Bytes) :
    List.Sublist (removeAlias l aid) l := by
  induction l with
  | nil => simp [removeAlias]
  | cons a r ih =>
      rw [removeAlias]
      by_cases ha : a.1 = aid
      · rw [if_pos ha]
        exact List.sublist_cons_self a r
      · rw [if_neg ha]
        exact ih.cons₂ a

lemma findAlias_none_iff {l : List (Bytes × Bytes)} {aid : Bytes} :
    findAlias l aid = none ↔ ∀ e ∈ l, e.1 ≠ aid := by
  induction l with
  | nil => simp [findAlias]
  | cons a r ih =>
      rw [findAlias]
      by_cases ha : a.1 = aid
      · simp [ha]
      · simp [ha, ih]

lemma findAlias_removeAlias_self {l : List (Bytes × Bytes)} {aid : Bytes}
    (h : (l.map Prod.fst).Nodup) : findAlias (removeAlias l aid) aid = none := by
  induction l with
  | nil => simp [removeAlias, findAlias]
  | cons a r ih =>
      rw [removeAlias]
      rw [List.map_cons, List.nodup_cons] at h
      by_cases ha : a.1 = aid
      · rw [if_pos ha]
        rw [findAlias_none_iff]
        intro e he heq
        exact h.1 (ha ▸ heq ▸ List.mem_map_of_mem Prod.fst he)
      · rw [if_neg ha]
        rw [findAlias, if_neg ha]
        exact ih h.2

lemma findAlias_removeAlias_none {l : List (Bytes × Bytes)} {aid x : Bytes}
    (h : findAlias l aid = none) : findAlias (removeAlias l x) aid = none := by
  rw [findAlias_none_iff] at h ⊢
  exact fun e he => h e ((removeAlias_sublist l x).subset he)

lemma sweep_nil (idx : List (Bytes × Bytes)) (ap : Nat) :
    sessAliasSweep [] idx ap = (none, [], idx, ap) := rfl

lemma sweep_cons_none (rest : List (Option Bytes)) (idx : List (Bytes × Bytes)) (ap : Nat) :
    sessAliasSweep (none :: rest) idx ap =
      ((sessAliasSweep rest idx ap).1, none :: (sessAliasSweep rest idx ap).2.1,
       (sessAliasSweep rest idx ap).2.2) := rfl

lemma sweep_cons_invalid {a : Bytes} {rest : List (Option Bytes)}
    {idx : List (Bytes × Bytes)} {ap : Nat} (hv : ¬ validSessid a = true) :
    sessAliasSweep (some a :: rest) idx ap = (some .invName, none :: rest, idx, ap) := by
  rw [sessAliasSweep, if_neg hv]

lemma sweep_cons_notfound {a : Bytes} {rest : List (Option Bytes)}
    {idx : List (Bytes × Bytes)} {ap : Nat} (hv : validSessid a = true)
    (hfa : findAlias idx a = none) :
    sessAliasSweep (some a :: rest) idx ap = (some .notFound, none :: rest, idx, ap) := by
  rw [sessAliasSweep, if_pos hv, hfa]

lemma sweep_cons_found {a : Bytes} {rest : List (Option Bytes)}
    {idx : List (Bytes × Bytes)} {ap : Nat} {e : Bytes × Bytes}
    (hv : validSessid a = true) (hfa : findAlias idx a = some e) :
    sessAliasSweep (some a :: rest) idx ap =
      ((sessAliasSweep rest (removeAlias idx a) (ap + 1)).1,
       none :: (sessAliasSweep rest (removeAlias idx a) (ap + 1)).2.1,
       (sessAliasSweep rest (removeAlias idx a) (ap + 1)).2.2) := by
  rw [sessAliasSweep, if_pos hv, hfa]

lemma sweep_mono_none :
    ∀ (slots : List (Option Bytes)) (idx : List (Bytes × Bytes)) (ap : Nat) (aid : Bytes),
      findAlias idx aid = none →
      findAlias (sessAliasSweep slots idx ap).2.2.1 aid = none := by
  intro slots
  induction slots with
  | nil => intro idx ap aid h; exact h
  | cons slot rest ih =>
      intro idx ap aid h
      match slot with
      | none =>
          rw [sweep_cons_none]
          exact ih idx ap aid h
      | some a =>
          by_cases hv : validSessid a
          · rcases hfa : findAlias idx a with _ | e
            · rw [sweep_cons_notfound hv hfa]
              exact h
            · rw [sweep_cons_found hv hfa]
              exact ih _ _ aid (findAlias_removeAlias_none h)
          · rw [sweep_cons_invalid hv]
            exact h

lemma removeAlias_keys_nodup {l : List (Bytes × Bytes)} {aid : Bytes}
    (h : (l.map Prod.fst).Nodup) : ((removeAlias l aid).map Prod.fst).Nodup :=
  h.sublist (List.Sublist.map Prod.fst (removeAlias_sublist l aid))

lemma sweep_removes :
    ∀ (slots : List (Option Bytes)) (idx : List (Bytes × Bytes)) (ap : Nat),
      (idx.map Prod.fst).Nodup →
      (sessAliasSweep slots idx ap).1 = none →
      ∀ aid, some aid ∈ slots →
        findAlias (sessAliasSweep slots idx ap).2.2.1 aid = none := by
  intro slots
  induction slots with
  | nil => intro idx ap _ _ aid h; simp at h
  | cons slot rest ih =>
      intro idx ap hnd hok aid hmem
      match slot with
      | none =>
          rcases List.mem_cons.mp hmem with h | h
          · simp at h
          · rw [sweep_cons_none] at hok ⊢
            exact ih idx ap hnd hok aid h
      | some a =>
          by_cases hv : validSessid a
          · rcases hfa : findAlias idx a with _ | e
            · rw [sweep_cons_notfound hv hfa] at hok
              simp at hok
            · rw [sweep_cons_found hv hfa] at hok ⊢
              rcases List.mem_cons.mp hmem with heq | h
              · have haid : aid = a := by injection heq
                subst haid
                exact sweep_mono_none rest _ _ _ (findAlias_removeAlias_self hnd)
              · exact ih _ _ (removeAlias_keys_nodup hnd) hok aid h
          · rw [sweep_cons_invalid hv] at hok
            simp at hok

lemma findFreeSlot_none_of_full {l : List (Option Bytes)}
    (h : ∀ slot ∈ l, slot ≠ none) : findFreeSlot l = none := by
  induction l with
  | nil => rfl
  | cons slot rest ih =>
      match slot with
      | none => exact absurd rfl (h none (List.mem_cons_self _ _))
      | some a =>
          rw [findFreeSlot, ih (fun s hs => h s (List.mem_cons_of_mem _ hs))]
          rfl

lemma session_do_destroy_ok {st : SessState} {sid : Bytes}
    (h : (session_destroy st sid).1 = .ok ()) :
    validSessid sid = true ∧
    ∃ sess, findSess st.sessions sid = some sess ∧
      (sessAliasSweep sess.aliases st.aliases st.apool).1 = none ∧
      (session_destroy st sid).2 = { st with
        sessions := removeSess st.sessions sid,
        aliases := (sessAliasSweep sess.aliases st.aliases st.apool).2.2.1,
        apool := (sessAliasSweep sess.aliases st.aliases st.apool).2.2.2,
        inUse := st.inUse - 1, pool := st.pool + 1 } := by
  rw [session_destroy] at h ⊢
  unfold session_do_destroy at h ⊢
  split at h
  · simp at h
  · next hv =>
    rw [not_not] at hv
    refine ⟨hv, ?_⟩
    split at h
    · simp at h
    · next sess heqf =>
        split at h
        · next e slots idx ap hsw => simp at h
        · next x idx ap hsw =>
            refine ⟨sess, heqf, by rw [hsw], ?_⟩
            rw [hsw, if_neg (by simp [hv])]

/-- Claim C4: for a live session, `session_create_alias` followed by
`session_get_sessid` on the new alias yields the original session id;
after `session_destroy_alias` the alias lookup returns NOT_FOUND;
destroying the session destroys all its aliases (each of its alias ids
then yields NOT_FOUND); and when all three alias slots of a session are
taken, a further `session_create_alias` returns LIMIT_REACHED. -/
theorem C4_alias_semantics :
    (∀ (st : SessState) (sid : Bytes) (now : Nat) (newA : Bytes),
        validSessid newA = true →
        (session_create_alias st sid now newA).1 = .ok newA →
        (session_get_sessid (session_create_alias st sid now newA).2 newA).1
          = .ok sid) ∧
    (∀ (st : SessState) (aid : Bytes),
        (st.aliases.map Prod.fst).Nodup →
        (session_destroy_alias st aid).1 = .ok () →
        (session_get_sessid (session_destroy_alias st aid).2 aid).1
          = .error .notFound) ∧
    (∀ (st : SessState) (sid aid : Bytes) (sess : Sess),
        (st.aliases.map Prod.fst).Nodup →
        validSessid aid = true →
        (session_destroy st sid).1 = .ok () →
        findSess st.sessions sid = some sess →
        some aid ∈ sess.aliases →
        (session_get_sessid (session_destroy st sid).2 aid).1 = .error .notFound) ∧
    (∀ (st : SessState) (sid : Bytes) (now : Nat) (newA : Bytes) (sess : Sess),
        validSessid sid = true →
        findSess st.sessions sid = some sess →
        check_ttl sess now = false →
        (∀ slot ∈ sess.aliases, slot ≠ none) →
        (session_create_alias st sid now newA).1 = .error .limitReached) := by
  refine ⟨?_, ?_, ?_, ?_⟩
  · intro st sid now newA hv2 hok
    rw [session_create_alias] at hok ⊢
    split
    · next e st2 heq =>
        rw [heq] at hok
        simp at hok
    · next sess2 st2 heq =>
        obtain ⟨hv, sess, hfind, httl, hsess2, hst2⟩ := get_session_object_ok heq
        rw [heq] at hok
        split
        · next hfs =>
            simp only [hfs] at hok
            simp at hok
        · next i hfs =>
            have h2 : sess.sessid = sid := findSess_some_sessid hfind
            have hss : sess2.sessid = sid := by rw [hsess2]; exact h2
            simp [session_get_sessid, hv2, findAlias, hss]
  · intro st aid hnd hok
    rw [session_destroy_alias] at hok ⊢
    split at hok
    · simp at hok
    · next hv =>
      rw [not_not] at hv
      rw [if_neg (by simp [hv])]
      split
      · next heq =>
          rw [heq] at hok
          simp at hok
      · next a heq =>
          simp only [session_get_sessid]
          rw [if_neg (by simp [hv]), findAlias_removeAlias_self hnd]
  · intro st sid aid sess hnd hv2 hok hfind hmem
    obtain ⟨hv, sess', heqf, hswnone, hst'⟩ := session_do_destroy_ok hok
    have hss : sess' = sess := by
      rw [hfind] at heqf
      exact Option.some.inj heqf.symm
    subst hss
    rw [hst']
    have h1 : findAlias (sessAliasSweep sess'.aliases st.aliases st.apool).2.2.1 aid
        = none := sweep_removes sess'.aliases st.aliases st.apool hnd hswnone aid hmem
    simp [session_get_sessid, hv2, h1]
  · intro st sid now newA sess hv hfind httl hfull
    have hfs : findFreeSlot sess.aliases = none := findFreeSlot_none_of_full hfull
    simp [session_create_alias, get_session_object, hv, hfind, httl, hfs]

/-- The session state used in the concrete witnesses: one live session
with id `yid` and empty alias slots. -/
def st0 : SessState :=
  { sessions := [⟨yid, 1800, 0, 0, [], [none, none, none]⟩],
    aliases := [], inUse := 1, pool := 0, apool := 0 }

/-- Witness for C4_alias_semantics: alias then sessid lookup. -/
theorem C4_alias_semantics_witness :
    (session_get_sessid (session_create_alias st0 yid 5 bid).2 bid).1 = .ok yid :=
  C4_alias_semantics.1 st0 yid 5 bid (by decide) (by rfl)

lemma get_session_object_error {st : SessState} {id : Bytes} {now : Nat}
    {e : SErr} {st2 : SessState}
    (h : get_session_object st id now = (.error e, st2)) :
    e = .invName ∨ e = .notFound := by
  unfold get_session_object at h
  split at h
  · simp only [Prod.mk.injEq, Except.error.injEq] at h
    exact Or.inl h.1.symm
  · split at h
    · simp only [Prod.mk.injEq, Except.error.injEq] at h
      exact Or.inr h.1.symm
    · split at h
      · simp only [Prod.mk.injEq, Except.error.injEq] at h
        exact Or.inr h.1.symm
      · simp at h

lemma findAlias_isSome_iff {l : List (Bytes × Bytes)} {aid : Bytes} :
    (findAlias l aid).isSome = true ↔ ∃ e ∈ l, e.1 = aid := by
  induction l with
  | nil => simp [findAlias]
  | cons a r ih =>
      rw [findAlias]
      by_cases ha : a.1 = aid
      · simp [ha]
      · simp [ha, ih]

lemma mem_removeAlias_of_ne {l : List (Bytes × Bytes)} {e : Bytes × Bytes} {a : Bytes}
    (hmem : e ∈ l) (hne : e.1 ≠ a) : e ∈ removeAlias l a := by
  induction l with
  | nil => simp at hmem
  | cons b r ih =>
      rw [removeAlias]
      by_cases hb : b.1 = a
      · rw [if_pos hb]
        rcases List.mem_cons.mp hmem with rfl | h
        · exact absurd hb hne
        · exact h
      · rw [if_neg hb]
        rcases List.mem_cons.mp hmem with rfl | h
        · exact List.mem_cons_self _ _
        · exact List.mem_cons_of_mem _ (ih h)

lemma findAlias_removeAlias_isSome {l : List (Bytes × Bytes)} {aid a : Bytes}
    (hne : aid ≠ a) (h : (findAlias l aid).isSome = true) :
    (findAlias (removeAlias l a) aid).isSome = true := by
  rw [findAlias_isSome_iff] at h ⊢
  obtain ⟨e, he, heq⟩ := h
  exact ⟨e, mem_removeAlias_of_ne he (heq ▸ hne), heq⟩

lemma sweep_ok_of_present :
    ∀ (slots : List (Option Bytes)) (idx : List (Bytes × Bytes)) (ap : Nat),
      (slots.filterMap id).Nodup →
      (∀ aid, some aid ∈ slots → validSessid aid = true ∧ (findAlias idx aid).isSome = true) →
      (sessAliasSweep slots idx ap).1 = none := by
  intro slots
  induction slots with
  | nil => intro idx ap _ _; rfl
  | cons slot rest ih =>
      intro idx ap hnd hpres
      match slot with
      | none =>
          rw [sweep_cons_none]
          exact ih idx ap (by simpa using hnd)
            (fun aid h => hpres aid (List.mem_cons_of_mem _ h))
      | some a =>
          have ha := hpres a (List.mem_cons_self _ _)
          obtain ⟨e, hfa⟩ := Option.isSome_iff_exists.mp ha.2
          rw [sweep_cons_found ha.1 hfa]
          rw [show (some a :: rest).filterMap id = a :: rest.filterMap id from rfl,
            List.nodup_cons] at hnd
          apply ih _ _ hnd.2
          intro aid hmem
          have h2 := hpres aid (List.mem_cons_of_mem _ hmem)
          have hne : aid ≠ a := by
            intro hcontra
            exact hnd.1 (hcontra ▸ List.mem_filterMap.mpr ⟨some aid, hmem, rfl⟩)
          exact ⟨h2.1, findAlias_removeAlias_isSome hne h2.2⟩

lemma updateSess_map_sessid (l : List Sess) (id : Bytes) (f : Sess → Sess)
    (hf : ∀ s, (f s).sessid = s.sessid) :
    (updateSess l id f).map Sess.sessid = l.map Sess.sessid := by
  induction l with
  | nil => rfl
  | cons s r ih =>
      rw [updateSess]
      by_cases hs : s.sessid = id
      · rw [if_pos hs]
        simp [hf]
      · rw [if_neg hs]
        simp [ih]

lemma findSess_none_iff {l : List Sess} {id : Bytes} :
    findSess l id = none ↔ ∀ s ∈ l, s.sessid ≠ id := by
  induction l with
  | nil => simp [findSess]
  | cons s r ih =>
      rw [findSess]
      by_cases hs : s.sessid = id
      · simp [hs]
      · simp [hs, ih]

lemma findSess_removeSess_self {l : List Sess} {id : Bytes}
    (h : (l.map Sess.sessid).Nodup) : findSess (removeSess l id) id = none := by
  induction l with
  | nil => simp [removeSess, findSess]
  | cons s r ih =>
      rw [removeSess]
      rw [List.map_cons, List.nodup_cons] at h
      by_cases hs : s.sessid = id
      · rw [if_pos hs]
        rw [findSess_none_iff]
        intro x hx heq
        exact h.1 (hs ▸ heq ▸ List.mem_map_of_mem Sess.sessid hx)
      · rw [if_neg hs]
        rw [findSess, if_neg hs]
        exact ih h.2

lemma findSess_mem : ∀ {l : List Sess} {id : Bytes} {s : Sess},
    findSess l id = some s → s ∈ l := by
  intro l
  induction l with
  | nil => intro id s h; simp [findSess] at h
  | cons a r ih =>
      intro id s h
      rw [findSess] at h
      by_cases ha : a.sessid = id
      · rw [if_pos ha] at h
        cases h
        exact List.mem_cons_self _ _
      · rw [if_neg ha] at h
        exact List.mem_cons_of_mem _ (ih h)

lemma session_destroy_removes {st : SessState} {sid : Bytes} {sess : Sess}
    (hv : validSessid sid = true)
    (hfind : findSess st.sessions sid = some sess)
    (hsw : (sessAliasSweep sess.aliases st.aliases st.apool).1 = none) :
    (session_destroy st sid).1 = .ok () ∧
    (session_destroy st sid).2.sessions = removeSess st.sessions sid := by
  rw [session_destroy]
  unfold session_do_destroy
  split
  · next h => exact absurd hv (by simpa using h)
  · split
    · next heq =>
        rw [hfind] at heq
        simp at heq
    · next sess2 heq =>
        have hss : sess2 = sess := by
          rw [hfind] at heq
          exact (Option.some.inj heq).symm
        subst hss
        split
        · next e slots idx ap hsw2 =>
            rw [hsw2] at hsw
            simp at hsw
        · next x idx ap hsw2 =>
            exact ⟨rfl, rfl⟩

/-- Claim C9: if a SESSION put fails with ENOMEM, the `put` branch of
`cmd_session` destroys the session before writing the error reply, so a
subsequent get or put on the same session id returns NOT_FOUND.  The
hypotheses state the store invariants that hold at runtime: distinct
session ids, distinct alias slots, and every alias slot registered in
the alias index. -/
theorem C9_enomem_destroys_session :
    ∀ (st : SessState) (sessid : Bytes) (dict : Dict) (now : Nat) (failIdx : Option Nat),
      (st.sessions.map Sess.sessid).Nodup →
      (∀ s ∈ st.sessions, (s.aliases.filterMap id).Nodup) →
      (∀ s ∈ st.sessions, ∀ aid, some aid ∈ s.aliases →
          validSessid aid = true ∧ (findAlias st.aliases aid).isSome = true) →
      (session_put st sessid dict now failIdx).1 = .error .enomem →
      (cmd_session_put st sessid dict now failIdx).1 = some .enomem ∧
      (∀ (now2 : Nat) (cd2 : Dict),
        (session_get (cmd_session_put st sessid dict now failIdx).2 sessid now2 cd2).1
          = .error .notFound) ∧
      (∀ (now2 : Nat) (d2 : Dict) (f2 : Option Nat),
        (session_put (cmd_session_put st sessid dict now failIdx).2 sessid d2 now2 f2).1
          = .error .notFound) := by
  intro st sessid dict now failIdx hnd hslotnd hpres hpe
  rcases hg : get_session_object st sessid now with ⟨r, st2⟩
  cases r with
  | error e =>
      exfalso
      simp only [session_put, hg] at hpe
      have he : e = .enomem := by simpa using hpe
      rcases get_session_object_error hg with h | h <;> simp [he] at h
  | ok sess2 =>
      obtain ⟨hv, sess, hfind, httl, hsess2, hst2⟩ := get_session_object_ok hg
      rcases hpl : (putLoop sess2.dict dict failIdx 0).1 with _ | e
      · exfalso
        simp only [session_put, hg, hpl] at hpe
        simp at hpe
      · have he : e = .enomem := by
          simp only [session_put, hg, hpl] at hpe
          simpa using hpe
        subst he
        set f2 : Sess → Sess :=
          fun s => { s with dict := (putLoop sess2.dict dict failIdx 0).2 } with hf2
        set st3 : SessState := { st2 with sessions := updateSess st2.sessions sessid f2 }
          with hst3
        have hput : session_put st sessid dict now failIdx = (.error .enomem, st3) := by
          rw [hst3, hf2]
          simp only [session_put, hg, hpl]
        have hcmd : cmd_session_put st sessid dict now failIdx =
            (some .enomem, (session_destroy st3 sessid).2) := by
          simp only [cmd_session_put, hput]
        have hsessmem : sess ∈ st.sessions := findSess_mem hfind
        have h3aliases : st3.aliases = st.aliases := by
          rw [hst3, hst2]
        have h3apool : st3.apool = st.apool := by
          rw [hst3, hst2]
        have hfind3 : findSess st3.sessions sessid =
            some (f2 { sess with accessed := now }) := by
          rw [hst3]
          show findSess (updateSess st2.sessions sessid f2) sessid = _
          rw [findSess_updateSess _ _ f2 (fun s => rfl), hst2]
          show ((findSess (updateSess st.sessions sessid
            (fun s => { s with accessed := now })) sessid).map f2) = _
          rw [findSess_updateSess _ _ (fun s => { s with accessed := now }) (fun s => rfl),
            hfind]
          rfl
        have hnd3 : (st3.sessions.map Sess.sessid).Nodup := by
          rw [hst3]
          show ((updateSess st2.sessions sessid f2).map Sess.sessid).Nodup
          rw [updateSess_map_sessid _ _ f2 (fun s => rfl), hst2]
          show ((updateSess st.sessions sessid
            (fun s => { s with accessed := now })).map Sess.sessid).Nodup
          rw [updateSess_map_sessid _ _ (fun s => { s with accessed := now }) (fun s => rfl)]
          exact hnd
        have hsw : (sessAliasSweep (f2 { sess with accessed := now }).aliases
            st3.aliases st3.apool).1 = none := by
          rw [h3aliases, h3apool]
          show (sessAliasSweep sess.aliases st.aliases st.apool).1 = none
          exact sweep_ok_of_present sess.aliases st.aliases st.apool
            (hslotnd sess hsessmem) (fun aid h => hpres sess hsessmem aid h)
        have hdes := session_destroy_removes hv hfind3 hsw
        have hrm : findSess (session_destroy st3 sessid).2.sessions sessid = none := by
          rw [hdes.2]
          exact findSess_removeSess_self hnd3
        refine ⟨by rw [hcmd], ?_, ?_⟩
        · intro now2 cd2
          rw [hcmd]
          simp [session_get, get_session_object, hv, hrm]
        · intro now2 d2 f2
          rw [hcmd]
          simp [session_put, get_session_object, hv, hrm]

/-- Witness for C9_enomem_destroys_session: a put whose first allocation
fails, then a get at a later time. -/
theorem C9_enomem_destroys_session_witness :
    (session_get (cmd_session_put st0 yid [⟨[70], some [98]⟩] 0 (some 0)).2 yid 1 []).1
      = .error .notFound :=
  (C9_enomem_destroys_session st0 yid [⟨[70], some [98]⟩] 0 (some 0)
    (by decide) (by decide)
    (by
      intro s hs aid hmem
      simp [st0] at hs
      subst hs
      simp at hmem)
    (by rfl)).2.1 1 []

/-! ## Reachability of the session store (for the 65536 cap)

The store evolves only through the session.c operations; the cap
argument needs the invariant that `sessions_in_use` plus the free-pool
size never exceeds 65536 (objects enter the pool only when a session is
destroyed). -/

/-- One session-store operation. -/
inductive SessStep : SessState → SessState → Prop where
  | create (st : SessState) (now : Nat) (ttl : Int) (dict : Dict) (newId : Bytes) :
      SessStep st (session_create st now ttl dict newId).2
  | destroy (st : SessState) (sessid : Bytes) :
      SessStep st (session_destroy st sessid).2
  | get (st : SessState) (sessid : Bytes) (now : Nat) (cd : Dict) :
      SessStep st (session_get st sessid now cd).2
  | put (st : SessState) (sessid : Bytes) (dict : Dict) (now : Nat) (failIdx : Option Nat) :
      SessStep st (session_put st sessid dict now failIdx).2
  | createAlias (st : SessState) (sessid : Bytes) (now : Nat) (newA : Bytes) :
      SessStep st (session_create_alias st sessid now newA).2
  | destroyAlias (st : SessState) (aliasid : Bytes) :
      SessStep st (session_destroy_alias st aliasid).2
  | getSessid (st : SessState) (aliasid : Bytes) :
      SessStep st (session_get_sessid st aliasid).2

/-- States reachable from daemon startup. -/
def SessReachable (st : SessState) : Prop :=
  Relation.ReflTransGen SessStep initState st

/-- The counting invariant: the in-use counter matches the number of
stored sessions, and in-use plus pooled objects never exceeds the cap. -/
def SessInv (st : SessState) : Prop :=
  st.inUse = st.sessions.length ∧ st.inUse + st.pool ≤ 65536

lemma updateSess_length (l : List Sess) (id : Bytes) (f : Sess → Sess) :
    (updateSess l id f).length = l.length := by
  induction l with
  | nil => rfl
  | cons s r ih =>
      rw [updateSess]
      by_cases hs : s.sessid = id
      · rw [if_pos hs]
        simp
      · rw [if_neg hs]
        simp [ih]

lemma removeSess_length_of_found : ∀ {l : List Sess} {id : Bytes} {s : Sess},
    findSess l id = some s → (removeSess l id).length + 1 = l.length := by
  intro l
  induction l with
  | nil => intro id s h; simp [findSess] at h
  | cons a r ih =>
      intro id s h
      rw [findSess] at h
      rw [removeSess]
      by_cases ha : a.sessid = id
      · rw [if_pos ha]
        simp
      · rw [if_neg ha] at h
        rw [if_neg ha]
        simp only [List.length_cons]
        rw [← ih h]

lemma inv_do_destroy (st : SessState) (sid : Bytes) (h : SessInv st) :
    SessInv (session_do_destroy st sid).2 := by
  unfold session_do_destroy
  split
  · exact h
  · split
    · exact h
    · next sess heq =>
        split
        · next e slots idx ap hsw =>
            refine ⟨?_, h.2⟩
            show st.inUse = (updateSess st.sessions sid _).length
            rw [updateSess_length]
            exact h.1
        · next x idx ap hsw =>
            have hlen := removeSess_length_of_found heq
            refine ⟨?_, ?_⟩
            · show st.inUse - 1 = (removeSess st.sessions sid).length
              have := h.1
              omega
            · show st.inUse - 1 + (st.pool + 1) ≤ 65536
              have h1 := h.1
              have h2 := h.2
              omega

lemma inv_gso (st : SessState) (id : Bytes) (now : Nat) (h : SessInv st) :
    SessInv (get_session_object st id now).2 := by
  unfold get_session_object
  split
  · exact h
  · split
    · exact h
    · next sess heq =>
        split
        · exact inv_do_destroy st id h
        · refine ⟨?_, h.2⟩
          show st.inUse = (updateSess st.sessions id _).length
          rw [updateSess_length]
          exact h.1

lemma inv_create (st : SessState) (now : Nat) (ttl : Int) (dict : Dict) (newId : Bytes)
    (h : SessInv st) : SessInv (session_create st now ttl dict newId).2 := by
  unfold session_create
  split
  · next hp =>
      have h1 := h.1
      have h2 := h.2
      exact ⟨by simp; omega, by simp; omega⟩
  · split
    · next hp hi =>
        have h1 := h.1
        have h2 := h.2
        simp only [not_lt] at hp
        exact ⟨by simp; omega, by simp; omega⟩
    · exact h

lemma inv_get (st : SessState) (sessid : Bytes) (now : Nat) (cd : Dict) (h : SessInv st) :
    SessInv (session_get st sessid now cd).2 := by
  unfold session_get
  split
  · next e st2 heq =>
      have hi := inv_gso st sessid now h
      rw [heq] at hi
      exact hi
  · next sess st2 heq =>
      have hi := inv_gso st sessid now h
      rw [heq] at hi
      exact hi

lemma inv_put (st : SessState) (sessid : Bytes) (dict : Dict) (now : Nat)
    (failIdx : Option Nat) (h : SessInv st) :
    SessInv (session_put st sessid dict now failIdx).2 := by
  unfold session_put
  split
  · next e st2 heq =>
      have hi := inv_gso st sessid now h
      rw [heq] at hi
      exact hi
  · next sess st2 heq =>
      have h2 : SessInv st2 := by
        have hi := inv_gso st sessid now h
        rw [heq] at hi
        exact hi
      rcases hres : (putLoop sess.dict dict failIdx 0).1 with _ | e2 <;>
        · simp only [hres]
          refine ⟨?_, h2.2⟩
          show st2.inUse = (updateSess st2.sessions sessid _).length
          rw [updateSess_length]
          exact h2.1

lemma inv_create_alias (st : SessState) (sessid : Bytes) (now : Nat) (newA : Bytes)
    (h : SessInv st) : SessInv (session_create_alias st sessid now newA).2 := by
  unfold session_create_alias
  split
  · next e st2 heq =>
      have hi := inv_gso st sessid now h
      rw [heq] at hi
      exact hi
  · next sess st2 heq =>
      have h2 : SessInv st2 := by
        have hi := inv_gso st sessid now h
        rw [heq] at hi
        exact hi
      split
      · exact h2
      · refine ⟨?_, h2.2⟩
        show st2.inUse = (updateSess st2.sessions sessid _).length
        rw [updateSess_length]
        exact h2.1

lemma inv_destroy_alias (st : SessState) (aliasid : Bytes) (h : SessInv st) :
    SessInv (session_destroy_alias st aliasid).2 := by
  unfold session_destroy_alias
  split
  · exact h
  · split
    · exact h
    · next a heq =>
        refine ⟨?_, h.2⟩
        show st.inUse = (updateSess st.sessions a.2 _).length
        rw [updateSess_length]
        exact h.1

lemma inv_get_sessid (st : SessState) (aliasid : Bytes) (h : SessInv st) :
    SessInv (session_get_sessid st aliasid).2 := by
  unfold session_get_sessid
  split
  · exact h
  · split
    · exact h
    · exact h

lemma reachable_inv {st : SessState} (h : SessReachable st) : SessInv st := by
  induction h with
  | refl => exact ⟨rfl, by simp [initState]⟩
  | tail hr hstep ih =>
      cases hstep with
      | create now ttl dict newId => exact inv_create _ now ttl dict newId ih
      | destroy sessid => exact inv_do_destroy _ sessid ih
      | get sessid now cd => exact inv_get _ sessid now cd ih
      | put sessid dict now failIdx => exact inv_put _ sessid dict now failIdx ih
      | createAlias sessid now newA => exact inv_create_alias _ sessid now newA ih
      | destroyAlias aliasid => exact inv_destroy_alias _ aliasid ih
      | getSessid aliasid => exact inv_get_sessid _ aliasid ih

/-- Claim C5: in every reachable state with 65536 sessions in use,
`session_create` returns LIMIT_REACHED and the whole session store is
returned unchanged. -/
theorem C5_session_cap :
    ∀ (st : SessState), SessReachable st → st.inUse = 65536 →
      ∀ (now : Nat) (ttl : Int) (dict : Dict) (newId : Bytes),
        session_create st now ttl dict newId = (.error .limitReached, st) := by
  intro st hr hcap now ttl dict newId
  have hinv := reachable_inv hr
  have h2 := hinv.2
  rw [session_create, if_neg (by omega : ¬ st.pool > 0),
    if_neg (by omega : ¬ st.inUse < 65536)]

/-- 65536 successive session creations from the empty store. -/
def iterCreate : Nat → SessState
  | 0 => initState
  | n + 1 => (session_create (iterCreate n) 0 60 [] yid).2

lemma iterCreate_props : ∀ n, n ≤ 65536 →
    SessReachable (iterCreate n) ∧ (iterCreate n).inUse = n ∧ (iterCreate n).pool = 0 := by
  intro n
  induction n with
  | zero => exact fun _ => ⟨Relation.ReflTransGen.refl, rfl, rfl⟩
  | succ n ih =>
      intro hn
      obtain ⟨hr, hin, hpool⟩ := ih (by omega)
      have h1 : ¬ ((iterCreate n).pool > 0) := by omega
      have h2 : (iterCreate n).inUse < 65536 := by omega
      refine ⟨Relation.ReflTransGen.tail hr (SessStep.create _ 0 60 [] yid), ?_, ?_⟩
      · show (session_create (iterCreate n) 0 60 [] yid).2.inUse = n + 1
        rw [session_create, if_neg h1, if_pos h2]
        simp [hin]
      · show (session_create (iterCreate n) 0 60 [] yid).2.pool = 0
        rw [session_create, if_neg h1, if_pos h2]
        simp [hpool]

/-- Witness for C5_session_cap: the state after 65536 creations. -/
theorem C5_session_cap_witness :
    session_create (iterCreate 65536) 0 60 [] yid
      = (.error .limitReached, iterCreate 65536) :=
  C5_session_cap (iterCreate 65536) (iterCreate_props 65536 (by omega)).1
    (iterCreate_props 65536 (by omega)).2.1 0 60 [] yid

end Payproc
